import Mathlib

/-!
Verification of the Medit mesh I/O module (`meshio/medit_io.py`).

The module has three parts, embedded here as follows.

* `_ItemReader` (a streaming tokenizer over lines) is embedded as the
  structure `ItemReader` together with `nextItems`.  The Python fields
  `_line`/`_line_ptr` are represented by the remaining buffer suffix
  `buf = _line[_line_ptr:]`, which is the only part of the pair the class
  ever reads; `_file` is the list of not-yet-consumed text lines.
  Python's `re.split(r"\s+", line.strip())` is embedded as `wsSplitCh`
  (maximal runs of non-whitespace characters), and the comment/blank-line
  skip (`while not line or line[0] == "#"`) as `tokenizeLine` returning
  `none`.  `StopIteration` is `none` from `nextItems`.

* `read_buffer` is embedded as `readLoopF` (the keyword loop, with a fuel
  argument so that the definition is structurally recursive and hence
  kernel-computable; `readRun`/`readTokens` instantiate the fuel with
  `tokens.length + 1`, which `readLoopF_fuel_irrel` shows is enough).
  The loop interacts with `_ItemReader` only through `next_item(s)`, whose
  exact behaviour on the flattened token stream is established by
  `nextItems_spec`; accordingly the loop is stated over the flat token list
  and `read_buffer` composes it with `flatTokens`.  Python exceptions
  (`StopIteration`, `AssertionError`, `ValueError` from `int()`/`numpy`,
  `UnboundLocalError` at the final `return`) are the constructors of
  `ReadErr`.

* `write` is embedded as a function from a `Mesh` to the list of text
  lines it emits plus the warnings it logs, or a `WriteErr` for the
  assertions/`KeyError` it can raise.

Numbers: integers (counts, indices, labels) are parsed by `parseInt`, a
model of Python's `int()`/numpy's string→int conversion on
whitespace-free tokens, and printed by `intToStr`/`natToStr`, a model of
the `%d` format.  Floating-point coordinates are kept as their written
tokens (Python `repr` of a float is injective and `float(repr(x)) = x`,
so a coordinate is represented by this canonical token); the reader
stores coordinate tokens unchanged, and the writer's `%r` emits the
stored token.  The point label, which Python parses as a float and then
truncates to int, is parsed here with `parseInt`; on every token `%d`
can produce the two agree.
-/

/-! ## Whitespace tokenization (model of `re.split(r"\s+", line.strip())`) -/

/-- Splits a character list into the maximal runs of non-whitespace
characters, accumulating the current run (reversed) in `acc`. -/
def wsSplitAux : List Char → List Char → List (List Char)
  | acc, [] => if acc.isEmpty then [] else [acc.reverse]
  | acc, c :: cs =>
    if c.isWhitespace then
      if acc.isEmpty then wsSplitAux [] cs else acc.reverse :: wsSplitAux [] cs
    else wsSplitAux (c :: acc) cs

/-- The whitespace-separated tokens of a line. -/
def wsSplitCh (cs : List Char) : List (List Char) := wsSplitAux [] cs

/-- One line of input as seen by `_ItemReader`: `none` when the line is
skipped (blank after stripping, or its first non-space character is `#`),
otherwise the list of its tokens. -/
def tokenizeLine (l : String) : Option (List String) :=
  match wsSplitCh l.data with
  | [] => none
  | t :: ts => if t.headD ' ' == '#' then none else some ((t :: ts).map (fun cs => ⟨cs⟩))

/-- All tokens of a line sequence, in file order, with skipped lines
contributing nothing. -/
def flatTokens : List String → List String
  | [] => []
  | l :: ls => (match tokenizeLine l with | none => [] | some ts => ts) ++ flatTokens ls

/-- A token that survives tokenization unchanged: nonempty, free of
whitespace, and not starting the `#` that would turn its line into a
comment.  Every token produced by `%d`, and the `repr` of every float,
has this shape. -/
def goodTok (s : String) : Bool :=
  !s.data.isEmpty && s.data.all (fun c => !c.isWhitespace) && !(s.data.headD ' ' == '#')

/-- The writer's `" ".join` / `numpy.savetxt` row format: tokens joined by
single spaces. -/
def joinToks : List String → String
  | [] => ""
  | [t] => t
  | t :: ts => t ++ " " ++ joinToks ts

theorem wsSplitAux_all_ws {cs : List Char} (acc : List Char)
    (h : ∀ c ∈ cs, c.isWhitespace) :
    wsSplitAux acc cs = if acc.isEmpty then [] else [acc.reverse] := by
  induction cs generalizing acc with
  | nil => rfl
  | cons c cs ih =>
    have hc : c.isWhitespace := h c (by simp)
    have hcs : ∀ c ∈ cs, c.isWhitespace := fun c hc => h c (by simp [hc])
    by_cases ha : acc.isEmpty
    · simp [wsSplitAux, hc, ha, ih [] hcs]
    · simp [wsSplitAux, hc, ha, ih [] hcs]

theorem wsSplitAux_push {tok : List Char} (rest acc : List Char)
    (h : ∀ c ∈ tok, !c.isWhitespace) :
    wsSplitAux acc (tok ++ rest) = wsSplitAux (tok.reverse ++ acc) rest := by
  induction tok generalizing acc with
  | nil => rfl
  | cons c cs ih =>
    have hc : c.isWhitespace = false := by simpa using h c (by simp)
    have hcs : ∀ c ∈ cs, !c.isWhitespace := fun c hc => h c (by simp [hc])
    simp [wsSplitAux, hc, ih (c :: acc) hcs]

theorem wsSplitAux_space (acc : List Char) (rest : List Char) :
    wsSplitAux acc (' ' :: rest) =
      if acc.isEmpty then wsSplitAux [] rest else acc.reverse :: wsSplitAux [] rest := by
  simp [wsSplitAux]

theorem string_append_data (a b : String) : (a ++ b).data = a.data ++ b.data := rfl

theorem wsSplitCh_join (ts : List String) (hne : ts ≠ [])
    (h : ∀ t ∈ ts, goodTok t = true) :
    wsSplitCh (joinToks ts).data = ts.map (·.data) := by
  induction ts with
  | nil => exact absurd rfl hne
  | cons t ts ih =>
    have ht : goodTok t = true := h t (by simp)
    have htne : ¬t.data.isEmpty := by
      simp only [goodTok, Bool.and_assoc, Bool.and_eq_true, Bool.not_eq_true'] at ht
      simp [ht.1]
    have htws : ∀ c ∈ t.data, !c.isWhitespace := by
      simp only [goodTok, Bool.and_assoc, Bool.and_eq_true] at ht
      intro c hc
      exact List.all_eq_true.mp ht.2.1 c hc
    have htnil : t.data ≠ [] := by
      intro hd; rw [hd] at htne; exact htne rfl
    cases ts with
    | nil =>
      show wsSplitAux [] t.data = [t.data]
      have := @wsSplitAux_push t.data [] [] htws
      simp only [List.append_nil] at this
      rw [this, wsSplitAux]
      simp [htnil]
    | cons u us =>
      have hrest : ∀ x ∈ u :: us, goodTok x = true := fun x hx => h x (by simp [hx])
      show wsSplitAux [] (t ++ " " ++ joinToks (u :: us)).data = t.data :: (u :: us).map (·.data)
      rw [string_append_data, string_append_data]
      have hsp : (" " : String).data = [' '] := rfl
      rw [hsp]
      simp only [List.append_assoc, List.singleton_append]
      rw [wsSplitAux_push (' ' :: (joinToks (u :: us)).data) [] htws]
      simp only [List.append_nil]
      rw [wsSplitAux_space]
      have hrne : (t.data.reverse).isEmpty = false := by
        simp [htnil]
      simp only [hrne, if_false, Bool.false_eq_true, List.reverse_reverse]
      have hih := ih (by simp) hrest
      unfold wsSplitCh at hih
      rw [hih]

theorem map_mk_data (l : List String) :
    (l.map (·.data)).map (fun cs => (⟨cs⟩ : String)) = l := by
  induction l with
  | nil => rfl
  | cons t ts ih => simp only [List.map_cons, ih]

theorem tokenizeLine_join (ts : List String) (hne : ts ≠ [])
    (h : ∀ t ∈ ts, goodTok t = true) :
    tokenizeLine (joinToks ts) = some ts := by
  unfold tokenizeLine
  rw [wsSplitCh_join ts hne h]
  cases ts with
  | nil => exact absurd rfl hne
  | cons t ts =>
    have ht : goodTok t = true := h t (by simp)
    have hhd : (t.data.headD ' ' == '#') = false := by
      simp only [goodTok, Bool.and_assoc, Bool.and_eq_true, Bool.not_eq_true'] at ht
      exact ht.2.2
    have := map_mk_data (t :: ts)
    simp only [List.map_cons] at this ⊢
    simp only [hhd, Bool.false_eq_true, if_false, this]

theorem tokenizeLine_single (t : String) (h : goodTok t = true) :
    tokenizeLine t = some [t] :=
  tokenizeLine_join [t] (by simp) (by simpa)

theorem flatTokens_append (a b : List String) :
    flatTokens (a ++ b) = flatTokens a ++ flatTokens b := by
  induction a with
  | nil => rfl
  | cons l ls ih => simp [flatTokens, ih]

theorem flatTokens_cons (l : String) (ls : List String) :
    flatTokens (l :: ls) =
      (match tokenizeLine l with | none => [] | some ts => ts) ++ flatTokens ls := rfl

/-! ## Blank and comment lines -/

/-- The claim's characterization of an invisible line: entirely whitespace,
or its first non-space character is `#`. -/
def skippable (l : String) : Bool :=
  l.data.all Char.isWhitespace || ((l.data.dropWhile Char.isWhitespace).headD ' ' == '#')

theorem wsSplitAux_ne_nil (cs : List Char) (acc : List Char) (ha : ¬acc.isEmpty) :
    ∃ u ts, wsSplitAux acc cs = (acc.reverse ++ u) :: ts := by
  induction cs generalizing acc with
  | nil => exact ⟨[], [], by simp [wsSplitAux, ha]⟩
  | cons c cs ih =>
    by_cases hc : c.isWhitespace
    · exact ⟨[], wsSplitAux [] cs, by simp [wsSplitAux, hc, ha]⟩
    · obtain ⟨u, ts, hu⟩ := ih (c :: acc) (by simp)
      refine ⟨[c] ++ u, ts, ?_⟩
      simp only [wsSplitAux, hc, if_false, ha]
      rw [hu]
      simp

theorem wsSplitCh_dropWhile (cs : List Char) :
    wsSplitCh cs = wsSplitCh (cs.dropWhile Char.isWhitespace) := by
  induction cs with
  | nil => rfl
  | cons c cs ih =>
    by_cases hc : c.isWhitespace
    · show wsSplitAux [] (c :: cs) = _
      simp only [wsSplitAux, hc, if_true, List.isEmpty_nil]
      rw [List.dropWhile_cons_of_pos (by simpa using hc)]
      exact ih
    · rw [List.dropWhile_cons_of_neg (by simpa using hc)]

theorem tokenizeLine_eq_none_iff (l : String) :
    tokenizeLine l = none ↔ skippable l = true := by
  unfold tokenizeLine skippable
  rcases hdw : l.data.dropWhile Char.isWhitespace with _ | ⟨c, cs⟩
  · have hall : l.data.all Char.isWhitespace := by
      rw [List.all_eq_true]
      intro c hc
      by_contra hcw
      have := List.dropWhile_eq_nil_iff.mp hdw c hc
      exact hcw this
    have : wsSplitCh l.data = [] := by
      rw [wsSplitCh_dropWhile, hdw]; rfl
    simp [this, hall]
  · have hc : ¬c.isWhitespace := by
      have := List.head?_dropWhile_not Char.isWhitespace l.data
      rw [hdw] at this
      simpa using this
    have hsplit : wsSplitCh l.data = wsSplitAux [c] cs := by
      rw [wsSplitCh_dropWhile, hdw]
      show wsSplitAux [] (c :: cs) = _
      simp [wsSplitAux, hc]
    obtain ⟨u, ts, hu⟩ := wsSplitAux_ne_nil cs [c] (by simp)
    rw [hsplit, hu]
    simp only [List.reverse_singleton, List.singleton_append, List.headD_cons]
    have hnotall : l.data.all Char.isWhitespace = false := by
      rw [Bool.eq_false_iff]
      intro hall
      have hmem : c ∈ l.data := by
        have hmem' : c ∈ l.data.dropWhile Char.isWhitespace := by rw [hdw]; simp
        exact (List.dropWhile_sublist _).subset hmem'
      exact hc (by simpa using List.all_eq_true.mp hall c hmem)
    by_cases hch : c = '#'
    · simp [hch, hnotall]
    · have : (c == '#') = false := by simpa using hch
      simp [this, hnotall, hch]

theorem flatTokens_skippable_middle (pre post : List String) (l : String)
    (h : skippable l = true) :
    flatTokens (pre ++ l :: post) = flatTokens (pre ++ post) := by
  have hl : tokenizeLine l = none := (tokenizeLine_eq_none_iff l).mpr h
  rw [flatTokens_append, flatTokens_append, flatTokens_cons, hl]
  simp

/-! ## Decimal integers: Python `int()` and the `%d` format -/

/-- The decimal digit characters, as produced by formatting. -/
def digitChar (d : Nat) : Char :=
  match d with
  | 0 => '0' | 1 => '1' | 2 => '2' | 3 => '3' | 4 => '4'
  | 5 => '5' | 6 => '6' | 7 => '7' | 8 => '8' | _ => '9'

/-- Numeric value of a digit character (partial inverse of `digitChar`). -/
def digitToNat (c : Char) : Nat := c.toNat - 48

/-- Model of Python `int()` digit accumulation over a digit string. -/
def parseNatAux : List Char → Nat → Option Nat
  | [], acc => some acc
  | c :: cs, acc => if c.isDigit then parseNatAux cs (acc * 10 + digitToNat c) else none

def parseNatCh (cs : List Char) : Option Nat :=
  if cs.isEmpty then none else parseNatAux cs 0

/-- Model of Python `int(token)` (equivalently numpy string→int conversion)
on a whitespace-free token: optional sign followed by decimal digits;
`none` models the `ValueError`. -/
def parseInt (s : String) : Option Int :=
  match s.data with
  | '-' :: cs => (parseNatCh cs).map (fun n => -(n : Int))
  | '+' :: cs => (parseNatCh cs).map (fun n => (n : Int))
  | cs => (parseNatCh cs).map (fun n => (n : Int))

/-- Little-endian decimal digits of `n`; the first argument is fuel
(`n` itself is enough, since the argument shrinks by a factor of 10). -/
def natDigitsRev : Nat → Nat → List Nat
  | 0, _ => []
  | fuel + 1, n => if n = 0 then [] else n % 10 :: natDigitsRev fuel (n / 10)

/-- Model of the `%d` format for a nonnegative integer. -/
def natToStr (n : Nat) : String :=
  if n = 0 then "0" else ⟨((natDigitsRev (n + 1) n).reverse).map digitChar⟩

/-- Model of the `%d` format for an integer. -/
def intToStr (i : Int) : String :=
  if i < 0 then ⟨'-' :: (natToStr i.natAbs).data⟩ else natToStr i.toNat

/-- Value of a little-endian digit list. -/
def digitsRevVal : List Nat → Nat
  | [] => 0
  | d :: ds => d + 10 * digitsRevVal ds

theorem natDigitsRev_spec (fuel n : Nat) (h : n ≤ fuel) :
    digitsRevVal (natDigitsRev fuel n) = n ∧ ∀ d ∈ natDigitsRev fuel n, d < 10 := by
  induction fuel generalizing n with
  | zero =>
    have : n = 0 := Nat.le_zero.mp h
    subst this
    exact ⟨rfl, by intro d hd; simp [natDigitsRev] at hd⟩
  | succ fuel ih =>
    by_cases hn : n = 0
    · subst hn
      exact ⟨rfl, by intro d hd; simp [natDigitsRev] at hd⟩
    · have hdiv : n / 10 ≤ fuel := by
        have h1 : n / 10 < n := Nat.div_lt_self (Nat.pos_of_ne_zero hn) (by omega)
        omega
      obtain ⟨hval, hdig⟩ := ih (n / 10) hdiv
      constructor
      · simp only [natDigitsRev, hn, if_false, digitsRevVal, hval]
        omega
      · intro d hd
        simp only [natDigitsRev, hn, if_false, List.mem_cons] at hd
        rcases hd with h1 | h2
        · subst h1; exact Nat.mod_lt _ (by omega)
        · exact hdig d h2

theorem digitChar_isDigit (d : Nat) : (digitChar d).isDigit = true := by
  rcases d with _ | _ | _ | _ | _ | _ | _ | _ | _ | d <;>
    first
      | decide
      | exact (by decide : ('9' : Char).isDigit = true)

theorem digitToNat_digitChar (d : Nat) (h : d < 10) : digitToNat (digitChar d) = d := by
  interval_cases d <;> decide

theorem digitChar_not_ws (d : Nat) : (digitChar d).isWhitespace = false := by
  rcases d with _ | _ | _ | _ | _ | _ | _ | _ | _ | d <;>
    first
      | decide
      | exact (by decide : ('9' : Char).isWhitespace = false)

theorem digitChar_ne_hash (d : Nat) : (digitChar d == '#') = false := by
  rcases d with _ | _ | _ | _ | _ | _ | _ | _ | _ | d <;>
    first
      | decide
      | exact (by decide : (('9' : Char) == '#') = false)

theorem digitChar_ne_minus (d : Nat) : digitChar d ≠ '-' := by
  rcases d with _ | _ | _ | _ | _ | _ | _ | _ | _ | d <;>
    first
      | decide
      | exact (by decide : ('9' : Char) ≠ '-')

theorem digitChar_ne_plus (d : Nat) : digitChar d ≠ '+' := by
  rcases d with _ | _ | _ | _ | _ | _ | _ | _ | _ | d <;>
    first
      | decide
      | exact (by decide : ('9' : Char) ≠ '+')

theorem parseNatAux_digits (ds : List Nat) (acc : Nat) (h : ∀ d ∈ ds, d < 10) :
    parseNatAux (ds.map digitChar) acc =
      some (ds.foldl (fun a d => a * 10 + d) acc) := by
  induction ds generalizing acc with
  | nil => rfl
  | cons d ds ih =>
    have hd : d < 10 := h d (by simp)
    simp only [List.map_cons, parseNatAux, digitChar_isDigit, if_true, List.foldl_cons]
    rw [digitToNat_digitChar d hd]
    exact ih _ (fun x hx => h x (by simp [hx]))

theorem foldl_reverse_digits (ds : List Nat) (acc : Nat) :
    (ds.reverse.foldl (fun a d => a * 10 + d) acc) =
      acc * 10 ^ ds.length + digitsRevVal ds := by
  induction ds generalizing acc with
  | nil => simp [digitsRevVal]
  | cons d ds ih =>
    simp only [List.reverse_cons, List.foldl_append, List.foldl_cons, List.foldl_nil,
      digitsRevVal, List.length_cons, ih]
    ring

theorem parseNatCh_natToStr (n : Nat) : parseNatCh (natToStr n).data = some n := by
  by_cases hn : n = 0
  · subst hn; decide
  · have hne : natDigitsRev (n + 1) n ≠ [] := by
      unfold natDigitsRev
      simp [hn]
    obtain ⟨hval, hdig⟩ := natDigitsRev_spec (n + 1) n (by omega)
    unfold natToStr
    simp only [hn, if_false]
    show parseNatCh (((natDigitsRev (n + 1) n).reverse).map digitChar) = some n
    unfold parseNatCh
    have hlen : ¬(((natDigitsRev (n + 1) n).reverse).map digitChar).isEmpty := by
      simp [hne]
    rw [if_neg hlen]
    rw [parseNatAux_digits _ 0 (fun d hd => hdig d (List.mem_reverse.mp hd))]
    rw [foldl_reverse_digits]
    simp [hval]

theorem natToStr_data_digits (n : Nat) :
    ∃ ds : List Nat, (natToStr n).data = ds.map digitChar ∧ ds ≠ [] := by
  by_cases hn : n = 0
  · subst hn
    exact ⟨[0], rfl, by simp⟩
  · refine ⟨((natDigitsRev (n + 1) n).reverse).map (fun d => d), ?_, ?_⟩
    · unfold natToStr
      simp only [hn, if_false, List.map_map]
      rfl
    · have hne : natDigitsRev (n + 1) n ≠ [] := by
        unfold natDigitsRev
        simp [hn]
      simp [hne]


theorem parseInt_of_data (s : String) (c : Char) (cs : List Char)
    (h : s.data = c :: cs) (h1 : c ≠ '-') (h2 : c ≠ '+') :
    parseInt s = (parseNatCh (c :: cs)).map (fun n => (n : Int)) := by
  unfold parseInt
  rw [h]
  split
  · rename_i heq
    exact absurd (List.head_eq_of_cons_eq heq) h1
  · rename_i heq
    exact absurd (List.head_eq_of_cons_eq heq) h2
  · rfl

theorem parseInt_of_neg_data (s : String) (cs : List Char)
    (h : s.data = '-' :: cs) :
    parseInt s = (parseNatCh cs).map (fun n => -(n : Int)) := by
  unfold parseInt
  rw [h]
  split
  · rename_i heq
    injection heq with h1 h2
    subst h2
    rfl
  · rename_i heq
    exact absurd (List.head_eq_of_cons_eq heq) (by decide)
  · rename_i h1 h2
    exact absurd rfl (h1 cs)

theorem parseInt_natToStr (n : Nat) : parseInt (natToStr n) = some (n : Int) := by
  obtain ⟨ds, hdata, hne⟩ := natToStr_data_digits n
  cases ds with
  | nil => exact absurd rfl hne
  | cons d ds' =>
    simp only [List.map_cons] at hdata
    rw [parseInt_of_data (natToStr n) (digitChar d) (ds'.map digitChar) hdata
      (digitChar_ne_minus d) (digitChar_ne_plus d)]
    rw [show digitChar d :: ds'.map digitChar = (natToStr n).data from hdata.symm]
    rw [parseNatCh_natToStr n]
    rfl

theorem parseInt_intToStr (i : Int) : parseInt (intToStr i) = some i := by
  by_cases hi : i < 0
  · have hdata : (intToStr i).data = '-' :: (natToStr i.natAbs).data := by
      unfold intToStr
      simp [hi]
    rw [parseInt_of_neg_data _ _ hdata, parseNatCh_natToStr i.natAbs]
    have : ((i.natAbs : Nat) : Int) = -i := by omega
    simp [this]
  · have hdata : intToStr i = natToStr i.toNat := by
      unfold intToStr
      simp [hi]
    rw [hdata, parseInt_natToStr]
    have : ((i.toNat : Nat) : Int) = i := by omega
    rw [this]

theorem goodTok_natToStr (n : Nat) : goodTok (natToStr n) = true := by
  obtain ⟨ds, hdata, hne⟩ := natToStr_data_digits n
  unfold goodTok
  rw [hdata]
  cases ds with
  | nil => exact absurd rfl hne
  | cons d ds' =>
    simp only [List.map_cons, List.isEmpty_cons, List.all_cons, List.headD_cons,
      Bool.not_false, Bool.true_and, Bool.and_eq_true, List.all_eq_true]
    refine ⟨⟨by simp [digitChar_not_ws], ?_⟩, by simp [digitChar_ne_hash]⟩
    intro c hc
    obtain ⟨e, _, he⟩ := List.mem_map.mp hc
    simp [← he, digitChar_not_ws]

theorem goodTok_intToStr (i : Int) : goodTok (intToStr i) = true := by
  by_cases hi : i < 0
  · have hdata : (intToStr i).data = '-' :: (natToStr i.natAbs).data := by
      unfold intToStr
      simp [hi]
    have hrest := goodTok_natToStr i.natAbs
    unfold goodTok at hrest ⊢
    rw [hdata]
    simp only [List.isEmpty_cons, List.all_cons, List.headD_cons, Bool.not_false,
      Bool.true_and, Bool.and_eq_true] at *
    refine ⟨⟨by decide, ?_⟩, by decide⟩
    rcases hd : (natToStr i.natAbs).data with _ | ⟨c, cs⟩
    · simp
    · rw [hd] at hrest
      simp only [List.all_cons, Bool.and_eq_true] at hrest ⊢
      exact ⟨hrest.1.2.1, hrest.1.2.2⟩
  · have hdata : intToStr i = natToStr i.toNat := by
      unfold intToStr
      simp [hi]
    rw [hdata]
    exact goodTok_natToStr i.toNat

/-! ## The tokenizer class -/

/-- State of `_ItemReader`: `buf` is the unread suffix of the current
line's token buffer (`self._line[self._line_ptr:]`, the only part of the
`_line`/`_line_ptr` pair the class ever reads), `file` the unread text
lines. -/
structure ItemReader where
  buf : List String
  file : List String
deriving DecidableEq, Repr

/-- `_ItemReader.__init__`: empty buffer, the whole file pending. -/
def ItemReader.init (lines : List String) : ItemReader := ⟨[], lines⟩

/-- The token stream still ahead of a reader state. -/
def remTokens (st : ItemReader) : List String := st.buf ++ flatTokens st.file

/-- The loop of `next_items`: take what the buffer offers; when the
buffer runs dry, load the next non-skipped line (`next(self._file).strip()`
plus the comment/blank skip loop) and continue.  `none` is the
`StopIteration` escaping from `next(self._file)`. -/
def nextItemsGo : Nat → List String → List String → Option (List String × ItemReader)
  | need, buf, [] =>
    if need ≤ buf.length then some (buf.take need, ⟨buf.drop need, []⟩) else none
  | need, buf, l :: rest =>
    if need ≤ buf.length then some (buf.take need, ⟨buf.drop need, l :: rest⟩)
    else
      match tokenizeLine l with
      | none => nextItemsGo need buf rest
      | some toks =>
        (nextItemsGo (need - buf.length) toks rest).map (fun r => (buf ++ r.1, r.2))

/-- `_ItemReader.next_items(n)`. -/
def nextItems (n : Nat) (st : ItemReader) : Option (List String × ItemReader) :=
  nextItemsGo n st.buf st.file

/-- `_ItemReader.next_item()`. -/
def nextItem (st : ItemReader) : Option (String × ItemReader) :=
  (nextItems 1 st).map (fun r => (r.1.headD "", r.2))

/-- Exact behaviour of `next_items` on the flattened token stream: it
succeeds if and only if `n` tokens are still ahead, returns exactly the
next `n` of them in file order, and leaves the rest pending. -/
theorem nextItemsGo_spec (file : List String) (need : Nat) (buf : List String) :
    (match nextItemsGo need buf file with
      | some (items, st') =>
          need ≤ (buf ++ flatTokens file).length ∧
          items = (buf ++ flatTokens file).take need ∧
          remTokens st' = (buf ++ flatTokens file).drop need
      | none => (buf ++ flatTokens file).length < need) := by
  induction file generalizing need buf with
  | nil =>
    by_cases h : need ≤ buf.length
    · simp only [nextItemsGo, h, if_true]
      refine ⟨by simpa [flatTokens] using h, ?_, ?_⟩
      · simp [flatTokens, List.take_append_of_le_length h]
      · simp [remTokens, flatTokens, List.drop_append_of_le_length h]
    · simp only [nextItemsGo, h, if_false]
      simp only [flatTokens, List.append_nil, List.length_nil]
      omega
  | cons l rest ih =>
    by_cases h : need ≤ buf.length
    · simp only [nextItemsGo, h, if_true]
      refine ⟨?_, ?_, ?_⟩
      · simp only [List.length_append]
        omega
      · rw [List.take_append_of_le_length h]
      · simp [remTokens, List.drop_append_of_le_length h]
    · simp only [nextItemsGo, h, if_false]
      rcases htl : tokenizeLine l with _ | toks
      · have hrec := ih need buf
        rcases hgo : nextItemsGo need buf rest with _ | ⟨items, st'⟩ <;>
            rw [hgo] at hrec <;>
            simp only [flatTokens, htl, List.nil_append]
        · exact hrec
        · exact hrec
      · simp only [htl]
        have hrec := ih (need - buf.length) toks
        have hsub : buf.length + (need - buf.length) = need := by omega
        rcases hgo : nextItemsGo (need - buf.length) toks rest with _ | ⟨items, st'⟩ <;>
            rw [hgo] at hrec
        · simp only [Option.map_none', flatTokens, htl, List.length_append] at hrec ⊢
          omega
        · obtain ⟨h1, h2, h3⟩ := hrec
          have hblen : buf.length < need := by omega
          simp only [Option.map_some', flatTokens, htl]
          refine ⟨?_, ?_, ?_⟩
          · simp only [List.length_append] at h1 ⊢
            omega
          · rw [List.take_append_eq_append_take,
              List.take_of_length_le (Nat.le_of_lt hblen), h2]
          · rw [List.drop_append_eq_append_drop,
              List.drop_of_length_le (Nat.le_of_lt hblen), h3]
            simp

theorem nextItems_enough (n : Nat) (st : ItemReader)
    (h : n ≤ (remTokens st).length) :
    ∃ st', nextItems n st = some ((remTokens st).take n, st') ∧
      remTokens st' = (remTokens st).drop n := by
  have hs := nextItemsGo_spec st.file n st.buf
  rcases hgo : nextItemsGo n st.buf st.file with _ | ⟨items, st'⟩ <;> rw [hgo] at hs
  · exact absurd h (by simpa [remTokens] using Nat.not_le_of_lt hs)
  · exact ⟨st', by simpa [nextItems, hgo, remTokens] using hs.2.1 ▸ rfl, hs.2.2⟩

theorem nextItems_exhausted (n : Nat) (st : ItemReader)
    (h : (remTokens st).length < n) :
    nextItems n st = none := by
  have hs := nextItemsGo_spec st.file n st.buf
  rcases hgo : nextItemsGo n st.buf st.file with _ | ⟨items, st'⟩ <;> rw [hgo] at hs
  · simp [nextItems, hgo]
  · exact absurd hs.1 (by simpa [remTokens] using Nat.not_le_of_lt h)

/-! ## Keyword tables (from `read_buffer` and `write`) -/

/-- `meshio_from_medit`: element keyword → (meshio family name, nodes per
record). -/
def meshio_from_medit (kw : String) : Option (String × Nat) :=
  if kw = "Edges" then some ("line", 2)
  else if kw = "Triangles" then some ("triangle", 3)
  else if kw = "Quadrilaterals" then some ("quad", 4)
  else if kw = "Tetrahedra" then some ("tetra", 4)
  else if kw = "Hexahedra" then some ("hexahedra", 8)
  else none

/-- `ignored_fields`: auxiliary keyword → number of values per entry. -/
def ignored_fields (kw : String) : Option Nat :=
  if kw = "Corners" then some 1
  else if kw = "RequiredVertices" then some 1
  else if kw = "Ridges" then some 1
  else if kw = "RequiredEdges" then some 1
  else if kw = "Normals" then some 3
  else if kw = "Tangents" then some 3
  else if kw = "NormalAtVertices" then some 2
  else if kw = "NormalAtTriangleVertices" then some 3
  else if kw = "NormalAtQuadrilateralVertices" then some 3
  else if kw = "TangentAtEdges" then some 3
  else none

/-- `medit_from_meshio` (in `write`): family name → (element keyword,
nodes per record). -/
def medit_from_meshio (name : String) : Option (String × Nat) :=
  if name = "line" then some ("Edges", 2)
  else if name = "triangle" then some ("Triangles", 3)
  else if name = "quad" then some ("Quadrilaterals", 4)
  else if name = "tetra" then some ("Tetrahedra", 4)
  else if name = "hexahedra" then some ("Hexahedra", 8)
  else none

/-! ## Insertion-ordered dictionaries

Python `dict`s keyed by family name or by the integer `0` are embedded as
association lists in insertion order; `d[k] = v` is `updD` (update in
place, or append at the end for a fresh key), `d[k]` is `lookupD`. -/

def lookupD {α β : Type} [DecidableEq α] (k : α) : List (α × β) → Option β
  | [] => none
  | (k', v) :: rest => if k = k' then some v else lookupD k rest

def updD {α β : Type} [DecidableEq α] (k : α) (v : β) : List (α × β) → List (α × β)
  | [] => [(k, v)]
  | (k', v') :: rest => if k = k' then (k, v) :: rest else (k', v') :: updD k v rest

/-! ## The reader (`read_buffer`) -/

/-- The ways `read_buffer` can raise, one constructor per Python
exception site: `StopIteration` escaping a mid-block `next_items`;
`AssertionError` from `assert keyword.isalpha()`, from
`assert reader.next_item() == "1"`, from `assert dim > 0`, and from
`assert keyword == "End"`; `ValueError` from `int()` on a malformed
token and from `numpy.empty` on a negative count; `UnboundLocalError`
from `return points, ...` when no `Vertices` block ever ran. -/
inductive ReadErr where
  | unexpectedEOF : ReadErr
  | malformedKeyword : String → ReadErr
  | unsupportedVersion : String → ReadErr
  | malformedNumber : String → ReadErr
  | dimensionNotSet : ReadErr
  | negativeCount : Int → ReadErr
  | unknownKeyword : String → ReadErr
  | unboundLocalPoints : ReadErr
deriving DecidableEq, Repr

/-- The local state of `read_buffer`'s loop.  `points = none` models the
variable `points` not being bound yet. -/
structure RState where
  dim : Int
  cells : List (String × List (List Int))
  point_data : List (Nat × List Int)
  cell_data : List (String × List (Nat × List Int))
  points : Option (List (List String))
  warnings : List String
deriving DecidableEq, Repr

def initRState : RState := ⟨0, [], [], [], none, []⟩

/-- What `return points, cells, point_data, cell_data` returns. -/
structure MeditData where
  points : List (List String)
  cells : List (String × List (List Int))
  point_data : List (Nat × List Int)
  cell_data : List (String × List (Nat × List Int))
deriving DecidableEq, Repr

/-- The `return` statement: raises `UnboundLocalError` when `points` was
never bound. -/
def finishRead (st : RState) : Except ReadErr (MeditData × List String) :=
  match st.points with
  | none => .error .unboundLocalPoints
  | some pts => .ok (⟨pts, st.cells, st.point_data, st.cell_data⟩, st.warnings)

/-- Pulling `n` tokens from the flat token stream; by `nextItems_spec`
this is exactly what `reader.next_items(n)` does, with `.error
.unexpectedEOF` for `StopIteration`. -/
def pull (n : Nat) (toks : List String) : Except ReadErr (List String × List String) :=
  if n ≤ toks.length then .ok (toks.take n, toks.drop n) else .error .unexpectedEOF

/-- `numpy.array(items, dtype=int)`: every token must parse as an
integer. -/
def parseInts : List String → Except ReadErr (List Int)
  | [] => .ok []
  | t :: ts =>
    match parseInt t with
    | none => .error (.malformedNumber t)
    | some v => (parseInts ts).map (fun vs => v :: vs)

/-- Python `keyword.isalpha()`. -/
def isAlphaKw (kw : String) : Bool := !kw.data.isEmpty && kw.data.all Char.isAlpha

/-- The `Vertices` record loop: each record is `dim` coordinate tokens
(kept as-is, see the module comment) plus one integer label. -/
def readVertexRows (dim : Nat) : Nat → List String →
    Except ReadErr (List (List String × Int) × List String)
  | 0, toks => .ok ([], toks)
  | c + 1, toks =>
    match pull (dim + 1) toks with
    | .error e => .error e
    | .ok (items, rest) =>
      match parseInt (items.getLastD "") with
      | none => .error (.malformedNumber (items.getLastD ""))
      | some lbl =>
        (readVertexRows dim c rest).map (fun r => ((items.dropLast, lbl) :: r.1, r.2))

/-- An element-block record loop: each record is `num` 1-based node
indices plus one integer label, all parsed as integers. -/
def readCellRows (num : Nat) : Nat → List String →
    Except ReadErr (List (List Int × Int) × List String)
  | 0, toks => .ok ([], toks)
  | c + 1, toks =>
    match pull (num + 1) toks with
    | .error e => .error e
    | .ok (items, rest) =>
      match parseInts items with
      | .error e => .error e
      | .ok vals =>
        (readCellRows num c rest).map
          (fun r => ((vals.dropLast, vals.getLastD 0) :: r.1, r.2))

/-- `cells[meshio_name] -= 1` applied after the record loop. -/
def adaptZeroBase (rows : List (List Int × Int)) : List (List Int) :=
  rows.map (fun r => r.1.map (fun i => i - 1))

def rowLabels (rows : List (List Int × Int)) : List Int := rows.map (·.2)

def vertexPoints (rows : List (List String × Int)) : List (List String) := rows.map (·.1)

def vertexLabels (rows : List (List String × Int)) : List Int := rows.map (·.2)

/-- The warning printed for a skipped auxiliary field. -/
def ignoredWarning (kw : String) : String :=
  "Warning: Field " ++ kw ++ " currently ignored by meshio."

/-- The `while True` keyword loop of `read_buffer`, over the flat token
stream.  The first argument is fuel making the recursion structural;
`readLoopF_fuel_irrel` shows any fuel above the token count gives the
same result, and `readRun` instantiates it.  `none` means out of fuel
(never happens from `readRun`). -/
def readLoopF : Nat → List String → RState → Option (Except ReadErr (MeditData × List String))
  | 0, _, _ => none
  | _ + 1, [], st => some (finishRead st)
  | fuel + 1, kw :: rest, st =>
    if ¬isAlphaKw kw then some (.error (.malformedKeyword kw))
    else if kw = "MeshVersionFormatted" then
      match pull 1 rest with
      | .error e => some (.error e)
      | .ok (v, rest') =>
        if v.headD "" = "1" then readLoopF fuel rest' st
        else some (.error (.unsupportedVersion (v.headD "")))
    else if kw = "Dimension" then
      match pull 1 rest with
      | .error e => some (.error e)
      | .ok (v, rest') =>
        match parseInt (v.headD "") with
        | none => some (.error (.malformedNumber (v.headD "")))
        | some d => readLoopF fuel rest' { st with dim := d }
    else if kw = "Vertices" then
      if st.dim ≤ 0 then some (.error .dimensionNotSet)
      else
        match pull 1 rest with
        | .error e => some (.error e)
        | .ok (v, rest') =>
          match parseInt (v.headD "") with
          | none => some (.error (.malformedNumber (v.headD "")))
          | some nv =>
            if nv < 0 then some (.error (.negativeCount nv))
            else
              match readVertexRows st.dim.toNat nv.toNat rest' with
              | .error e => some (.error e)
              | .ok (rows, rest2) =>
                readLoopF fuel rest2
                  { st with
                    points := some (vertexPoints rows),
                    point_data := updD 0 (vertexLabels rows) st.point_data }
    else
      match meshio_from_medit kw with
      | some (name, num) =>
        match pull 1 rest with
        | .error e => some (.error e)
        | .ok (v, rest') =>
          match parseInt (v.headD "") with
          | none => some (.error (.malformedNumber (v.headD "")))
          | some nc =>
            if nc < 0 then some (.error (.negativeCount nc))
            else
              match readCellRows num nc.toNat rest' with
              | .error e => some (.error e)
              | .ok (rows, rest2) =>
                readLoopF fuel rest2
                  { st with
                    cells := updD name (adaptZeroBase rows) st.cells,
                    cell_data := updD name [(0, rowLabels rows)] st.cell_data }
      | none =>
        match ignored_fields kw with
        | some mult =>
          let st' := { st with warnings := st.warnings ++ [ignoredWarning kw] }
          match pull 1 rest with
          | .error e => some (.error e)
          | .ok (v, rest') =>
            match parseInt (v.headD "") with
            | none => some (.error (.malformedNumber (v.headD "")))
            | some k =>
              match pull (k * (mult : Int)).toNat rest' with
              | .error e => some (.error e)
              | .ok (_, rest2) => readLoopF fuel rest2 st'
        | none =>
          if kw = "End" then readLoopF fuel rest st
          else some (.error (.unknownKeyword kw))

/-- The loop with its fuel instantiated sufficiently. -/
def readRun (toks : List String) (st : RState) :
    Option (Except ReadErr (MeditData × List String)) :=
  readLoopF (toks.length + 1) toks st

/-- `read_buffer` on the flat token stream. -/
def readTokens (toks : List String) : Except ReadErr (MeditData × List String) :=
  (readRun toks initRState).getD (.error .unexpectedEOF)

/-- `read_buffer` on a file, given as its list of text lines. -/
def read_buffer (lines : List String) : Except ReadErr (MeditData × List String) :=
  readTokens (flatTokens lines)

/-! ## Token-consumption bookkeeping -/

theorem pull_ok {n : Nat} {toks xs rest : List String}
    (h : pull n toks = .ok (xs, rest)) :
    xs = toks.take n ∧ rest = toks.drop n ∧ n ≤ toks.length := by
  unfold pull at h
  by_cases hn : n ≤ toks.length
  · rw [if_pos hn] at h
    injection h with h
    injection h with h1 h2
    exact ⟨h1.symm, h2.symm, hn⟩
  · rw [if_neg hn] at h
    exact absurd h (by simp)

theorem pull_err {n : Nat} {toks : List String} {e : ReadErr}
    (h : pull n toks = .error e) : toks.length < n ∧ e = .unexpectedEOF := by
  unfold pull at h
  by_cases hn : n ≤ toks.length
  · rw [if_pos hn] at h
    exact absurd h (by simp)
  · rw [if_neg hn] at h
    injection h with h
    exact ⟨by omega, h.symm⟩

theorem readVertexRows_drop {dim : Nat} :
    ∀ {c : Nat} {toks : List String} {rows rest},
    readVertexRows dim c toks = .ok (rows, rest) → ∃ k, rest = toks.drop k := by
  intro c
  induction c with
  | zero =>
    intro toks rows rest h
    simp only [readVertexRows] at h
    injection h with h
    injection h with h1 h2
    exact ⟨0, by simp [h2.symm]⟩
  | succ c ih =>
    intro toks rows rest h
    simp only [readVertexRows] at h
    split at h
    · exact Except.noConfusion h
    · rename_i items rest1 hp
      split at h
      · exact Except.noConfusion h
      · rename_i lbl hl
        rcases hr : readVertexRows dim c rest1 with e | ⟨rows', rest2⟩ <;> rw [hr] at h
        · simp only [Except.map] at h
          exact Except.noConfusion h
        · simp only [Except.map] at h
          injection h with h
          injection h with h1 h2
          obtain ⟨k, hk⟩ := ih hr
          obtain ⟨-, hrest1, -⟩ := pull_ok hp
          exact ⟨_, by rw [← h2, hk, hrest1, List.drop_drop]⟩

theorem readCellRows_drop {num : Nat} :
    ∀ {c : Nat} {toks : List String} {rows rest},
    readCellRows num c toks = .ok (rows, rest) → ∃ k, rest = toks.drop k := by
  intro c
  induction c with
  | zero =>
    intro toks rows rest h
    simp only [readCellRows] at h
    injection h with h
    injection h with h1 h2
    exact ⟨0, by simp [h2.symm]⟩
  | succ c ih =>
    intro toks rows rest h
    simp only [readCellRows] at h
    split at h
    · exact Except.noConfusion h
    · rename_i items rest1 hp
      split at h
      · exact Except.noConfusion h
      · rename_i vals hv
        rcases hr : readCellRows num c rest1 with e | ⟨rows', rest2⟩ <;> rw [hr] at h
        · simp only [Except.map] at h
          exact Except.noConfusion h
        · simp only [Except.map] at h
          injection h with h
          injection h with h1 h2
          obtain ⟨k, hk⟩ := ih hr
          obtain ⟨-, hrest1, -⟩ := pull_ok hp
          exact ⟨_, by rw [← h2, hk, hrest1, List.drop_drop]⟩

theorem readLoopF_fuel_irrel :
    ∀ (L : Nat) (toks : List String) (st : RState) (f g : Nat),
      toks.length ≤ L → toks.length < f → toks.length < g →
      readLoopF f toks st = readLoopF g toks st := by
  intro L
  induction L with
  | zero =>
    intro toks st f g hL hf hg
    have htoks : toks = [] := List.eq_nil_of_length_eq_zero (by omega)
    subst htoks
    obtain ⟨a, rfl⟩ : ∃ a, f = a + 1 := ⟨f - 1, by omega⟩
    obtain ⟨b, rfl⟩ : ∃ b, g = b + 1 := ⟨g - 1, by omega⟩
    rfl
  | succ L ih =>
    intro toks st f g hL hf hg
    cases toks with
    | nil =>
      obtain ⟨a, rfl⟩ : ∃ a, f = a + 1 := ⟨f - 1, by omega⟩
      obtain ⟨b, rfl⟩ : ∃ b, g = b + 1 := ⟨g - 1, by omega⟩
      rfl
    | cons kw rest =>
      obtain ⟨a, rfl⟩ : ∃ a, f = a + 1 := ⟨f - 1, by omega⟩
      obtain ⟨b, rfl⟩ : ∃ b, g = b + 1 := ⟨g - 1, by omega⟩
      simp only [List.length_cons] at hL hf hg
      have hstep : ∀ (toks' : List String) (st' : RState), toks'.length ≤ rest.length →
          readLoopF a toks' st' = readLoopF b toks' st' := by
        intro toks' st' h'
        exact ih toks' st' a b (by omega) (by omega) (by omega)
      have hdlen : ∀ (n : Nat) (l : List String), l = rest.drop n → l.length ≤ rest.length := by
        intro n l hl
        rw [hl, List.length_drop]
        omega
      simp only [readLoopF]
      split
      · rfl
      · split
        · -- MeshVersionFormatted
          split
          · rfl
          · rename_i v rest' hp
            obtain ⟨-, hr', -⟩ := pull_ok hp
            split
            · exact hstep rest' st (hdlen 1 rest' hr')
            · rfl
        · split
          · -- Dimension
            split
            · rfl
            · rename_i v rest' hp
              obtain ⟨-, hr', -⟩ := pull_ok hp
              split
              · rfl
              · exact hstep rest' _ (hdlen 1 rest' hr')
          · split
            · -- Vertices
              split
              · rfl
              · split
                · rfl
                · rename_i v rest' hp
                  obtain ⟨-, hr', -⟩ := pull_ok hp
                  split
                  · rfl
                  · split
                    · rfl
                    · split
                      · rfl
                      · rename_i rows rest2 hrows
                        obtain ⟨k, hk⟩ := readVertexRows_drop hrows
                        refine hstep rest2 _ ?_
                        rw [hk, hr', List.drop_drop, List.length_drop]
                        omega
            · split
              · -- element keyword
                rename_i name num htbl
                split
                · rfl
                · rename_i v rest' hp
                  obtain ⟨-, hr', -⟩ := pull_ok hp
                  split
                  · rfl
                  · split
                    · rfl
                    · split
                      · rfl
                      · rename_i rows rest2 hrows
                        obtain ⟨k, hk⟩ := readCellRows_drop hrows
                        refine hstep rest2 _ ?_
                        rw [hk, hr', List.drop_drop, List.length_drop]
                        omega
              · split
                · -- ignored field
                  rename_i mult hign
                  split
                  · rfl
                  · rename_i v rest' hp
                    obtain ⟨-, hr', -⟩ := pull_ok hp
                    split
                    · rfl
                    · rename_i k hk
                      split
                      · rfl
                      · rename_i w rest2 hp2
                        obtain ⟨-, hr2, -⟩ := pull_ok hp2
                        refine hstep rest2 _ ?_
                        rw [hr2, hr', List.drop_drop, List.length_drop]
                        omega
                · split
                  · exact hstep rest st (Nat.le_refl _)
                  · rfl

/-! ## Step lemmas: one keyword block at a time -/

theorem pull_of_le {n : Nat} {toks : List String} (h : n ≤ toks.length) :
    pull n toks = .ok (toks.take n, toks.drop n) := by
  unfold pull
  rw [if_pos h]

theorem pull_one_cons (t : String) (toks : List String) :
    pull 1 (t :: toks) = .ok ([t], toks) := by
  rw [pull_of_le (by simp)]
  simp

theorem meshio_kw_facts {kw name : String} {num : Nat}
    (h : meshio_from_medit kw = some (name, num)) :
    isAlphaKw kw = true ∧ kw ≠ "MeshVersionFormatted" ∧ kw ≠ "Dimension" ∧
      kw ≠ "Vertices" := by
  unfold meshio_from_medit at h
  split_ifs at h with h1 h2 h3 h4 h5
  · subst h1; exact ⟨by decide, by decide, by decide, by decide⟩
  · subst h2; exact ⟨by decide, by decide, by decide, by decide⟩
  · subst h3; exact ⟨by decide, by decide, by decide, by decide⟩
  · subst h4; exact ⟨by decide, by decide, by decide, by decide⟩
  · subst h5; exact ⟨by decide, by decide, by decide, by decide⟩

theorem ignored_kw_facts {kw : String} {mult : Nat}
    (h : ignored_fields kw = some mult) :
    isAlphaKw kw = true ∧ kw ≠ "MeshVersionFormatted" ∧ kw ≠ "Dimension" ∧
      kw ≠ "Vertices" ∧ meshio_from_medit kw = none := by
  unfold ignored_fields at h
  split_ifs at h with h1 h2 h3 h4 h5 h6 h7 h8 h9 h10
  · subst h1; exact ⟨by decide, by decide, by decide, by decide, by decide⟩
  · subst h2; exact ⟨by decide, by decide, by decide, by decide, by decide⟩
  · subst h3; exact ⟨by decide, by decide, by decide, by decide, by decide⟩
  · subst h4; exact ⟨by decide, by decide, by decide, by decide, by decide⟩
  · subst h5; exact ⟨by decide, by decide, by decide, by decide, by decide⟩
  · subst h6; exact ⟨by decide, by decide, by decide, by decide, by decide⟩
  · subst h7; exact ⟨by decide, by decide, by decide, by decide, by decide⟩
  · subst h8; exact ⟨by decide, by decide, by decide, by decide, by decide⟩
  · subst h9; exact ⟨by decide, by decide, by decide, by decide, by decide⟩
  · subst h10; exact ⟨by decide, by decide, by decide, by decide, by decide⟩

/-- The `End` keyword is a no-op: the loop just continues.  The source's
`else` branch only asserts `keyword == "End"` and never breaks. -/
theorem readRun_end (toks : List String) (st : RState) :
    readRun ("End" :: toks) st = readRun toks st := rfl

theorem readRun_nil (st : RState) : readRun [] st = some (finishRead st) := rfl


theorem readRun_mvf (toks : List String) (st : RState) :
    readRun ("MeshVersionFormatted" :: "1" :: toks) st = readRun toks st := by
  have hrun : readRun ("MeshVersionFormatted" :: "1" :: toks) st =
      readLoopF ((toks.length + 2) + 1)
        ("MeshVersionFormatted" :: "1" :: toks) st := rfl
  rw [hrun]
  simp only [readLoopF, pull_one_cons, List.headD_cons, if_true]
  exact readLoopF_fuel_irrel toks.length toks st _ _ (Nat.le_refl _) (by omega) (by omega)

theorem readRun_dimension (t : String) (d : Int) (toks : List String) (st : RState)
    (ht : parseInt t = some d) :
    readRun ("Dimension" :: t :: toks) st = readRun toks { st with dim := d } := by
  have hrun : readRun ("Dimension" :: t :: toks) st =
      readLoopF ((toks.length + 2) + 1) ("Dimension" :: t :: toks) st := rfl
  rw [hrun]
  simp only [readLoopF, pull_one_cons, List.headD_cons, ht, if_true]
  exact readLoopF_fuel_irrel toks.length toks _ _ _ (Nat.le_refl _) (by omega) (by omega)

theorem readRun_vertices (cntTok : String) (n : Nat) {toks rest2 : List String}
    {rows : List (List String × Int)} (st : RState)
    (hdim : 0 < st.dim)
    (hcnt : parseInt cntTok = some ((n : Nat) : Int))
    (hrows : readVertexRows st.dim.toNat n toks = .ok (rows, rest2)) :
    readRun ("Vertices" :: cntTok :: toks) st =
      readRun rest2
        { st with
          points := some (vertexPoints rows),
          point_data := updD 0 (vertexLabels rows) st.point_data } := by
  have hrun : readRun ("Vertices" :: cntTok :: toks) st =
      readLoopF ((toks.length + 2) + 1) ("Vertices" :: cntTok :: toks) st := rfl
  rw [hrun]
  simp only [readLoopF, pull_one_cons, List.headD_cons, hcnt, Int.toNat_ofNat, hrows,
    if_true]
  rw [if_neg (by omega : ¬st.dim ≤ 0), if_neg (by omega : ¬((n : Nat) : Int) < 0)]
  obtain ⟨k, hk⟩ := readVertexRows_drop hrows
  refine readLoopF_fuel_irrel (toks.length + 2) rest2 _ _ _ ?_ ?_ ?_ <;>
    rw [hk, List.length_drop] <;> omega

theorem readRun_element {kw name : String} {num : Nat} (cntTok : String) (n : Nat)
    {toks rest2 : List String} {rows : List (List Int × Int)} (st : RState)
    (htbl : meshio_from_medit kw = some (name, num))
    (hcnt : parseInt cntTok = some ((n : Nat) : Int))
    (hrows : readCellRows num n toks = .ok (rows, rest2)) :
    readRun (kw :: cntTok :: toks) st =
      readRun rest2
        { st with
          cells := updD name (adaptZeroBase rows) st.cells,
          cell_data := updD name [(0, rowLabels rows)] st.cell_data } := by
  obtain ⟨ha, h1, h2, h3⟩ := meshio_kw_facts htbl
  have hrun : readRun (kw :: cntTok :: toks) st =
      readLoopF ((toks.length + 2) + 1) (kw :: cntTok :: toks) st := rfl
  rw [hrun]
  simp only [readLoopF, htbl, pull_one_cons, List.headD_cons, hcnt, Int.toNat_ofNat,
    hrows, if_true]
  rw [if_neg (by simp [ha]), if_neg h1, if_neg h2, if_neg h3,
    if_neg (by omega : ¬((n : Nat) : Int) < 0)]
  obtain ⟨k, hk⟩ := readCellRows_drop hrows
  refine readLoopF_fuel_irrel (toks.length + 2) rest2 _ _ _ ?_ ?_ ?_ <;>
    rw [hk, List.length_drop] <;> omega

theorem readRun_ignored {kw : String} {mult : Nat} (cntTok : String) (n : Nat)
    {toks : List String} (st : RState)
    (hign : ignored_fields kw = some mult)
    (hcnt : parseInt cntTok = some ((n : Nat) : Int))
    (hlen : n * mult ≤ toks.length) :
    readRun (kw :: cntTok :: toks) st =
      readRun (toks.drop (n * mult))
        { st with warnings := st.warnings ++ [ignoredWarning kw] } := by
  obtain ⟨ha, h1, h2, h3, htbl⟩ := ignored_kw_facts hign
  have hmul : (((n : Nat) : Int) * ((mult : Nat) : Int)).toNat = n * mult := by
    rw [← Int.natCast_mul, Int.toNat_ofNat]
  have hp2 : pull (n * mult) toks =
      .ok (toks.take (n * mult), toks.drop (n * mult)) := pull_of_le hlen
  have hrun : readRun (kw :: cntTok :: toks) st =
      readLoopF ((toks.length + 2) + 1) (kw :: cntTok :: toks) st := rfl
  rw [hrun]
  simp only [readLoopF, htbl, hign, pull_one_cons, List.headD_cons, hcnt, hmul, hp2,
    if_true]
  rw [if_neg (by simp [ha]), if_neg h1, if_neg h2, if_neg h3]
  refine readLoopF_fuel_irrel (toks.length + 2) _ _ _ _ ?_ ?_ ?_ <;>
    rw [List.length_drop] <;> omega

/-! ## The writer (`write`) -/

/-- The in-memory mesh container handed to `write` (the external `Mesh`
class): coordinate rows (as canonical float tokens, see the module
comment) with their arity `dim`, plus the label dictionaries. -/
structure Mesh where
  dim : Nat
  points : List (List String)
  point_data : List (Nat × List Int)
  cells : List (String × List (List Int))
  cell_data : List (String × List (Nat × List Int))
deriving DecidableEq, Repr

/-- Writer-side exceptions: the two `assert len(...) == 1, "Only 1-D
labels supported."` sites, and the `KeyError` from `mesh.cell_data[key]`
when `cell_data` is nonempty but lacks the family. -/
inductive WriteErr where
  | multiLabelUnsupported : WriteErr
  | keyErrorCellData : String → WriteErr
deriving DecidableEq, Repr

/-- The vertex-label selection in `write`: default all-1, key `0` if
present, else the sole sequence (asserting there is exactly one). -/
def pointLabelsOf (m : Mesh) : Except WriteErr (List Int) :=
  if m.point_data.isEmpty then .ok (List.replicate m.points.length 1)
  else
    match lookupD 0 m.point_data with
    | some ls => .ok ls
    | none =>
      if m.point_data.length = 1 then .ok ((m.point_data.headD (0, [])).2)
      else .error .multiLabelUnsupported

/-- The cell-label selection in `write` for one family (`key`, with
`len` records): default all-1 when `cell_data` is empty as a whole;
otherwise `mesh.cell_data[key]` (KeyError if missing), then key `0` if
present, else the sole sequence. -/
def cellLabelsOf (m : Mesh) (key : String) (len : Nat) : Except WriteErr (List Int) :=
  if m.cell_data.isEmpty then .ok (List.replicate len 1)
  else
    match lookupD key m.cell_data with
    | none => .error (.keyErrorCellData key)
    | some inner =>
      match lookupD 0 inner with
      | some ls => .ok ls
      | none =>
        if inner.length = 1 then .ok ((inner.headD (0, [])).2)
        else .error .multiLabelUnsupported

/-- One `numpy.savetxt` row of the vertex block: `%r`-coordinates (the
stored canonical tokens) then the `%d` label. -/
def writeVertexRow (coords : List String) (lbl : Int) : String :=
  joinToks (coords ++ [intToStr lbl])

/-- One `numpy.savetxt` row of a cell block: the `%d` 1-based indices
(`data + 1`) then the `%d` label. -/
def writeCellRow (row : List Int) (lbl : Int) : String :=
  joinToks (row.map (fun i => intToStr (i + 1)) ++ [intToStr lbl])

/-- `logging.warning` text for a family the format cannot express. -/
def unknownCellWarning (key : String) : String :=
  "MEDIT\x27s mesh format doesn\x27t know " ++ key ++ " cells. Skipping."

/-- The `for key, data in mesh.cells.items()` loop of `write`: per
family either a skip-warning, or a blank separator, the keyword line,
the count line and the records. -/
def writeCellBlocks (m : Mesh) : List (String × List (List Int)) →
    Except WriteErr (List String × List String)
  | [] => .ok ([], [])
  | (key, data) :: rest =>
    match medit_from_meshio key with
    | none =>
      (writeCellBlocks m rest).map
        (fun r => (r.1, unknownCellWarning key :: r.2))
    | some (medit_name, _num) =>
      match cellLabelsOf m key data.length with
      | .error e => .error e
      | .ok lbls =>
        (writeCellBlocks m rest).map
          (fun r =>
            (["", medit_name, natToStr data.length] ++
              List.zipWith writeCellRow data lbls ++ r.1, r.2))

/-- `write`: the version line, the producer comment, the dimension and
vertex blocks, the cell blocks, and the terminal keyword, returned as
the emitted text lines together with the logged warnings. -/
def write (m : Mesh) : Except WriteErr (List String × List String) :=
  match pointLabelsOf m with
  | .error e => .error e
  | .ok plbls =>
    match writeCellBlocks m m.cells with
    | .error e => .error e
    | .ok (cellLines, ws) =>
      .ok (["MeshVersionFormatted 1", "# Created by meshio", "",
            joinToks ["Dimension", natToStr m.dim], "",
            "Vertices", natToStr m.points.length] ++
           List.zipWith writeVertexRow m.points plbls ++
           cellLines ++ ["", "End"], ws)

/-! ## Claims -/

/-- C2 (amended): pulling the terminal keyword `End` does not stop the
reader — the source's `else` branch merely asserts `keyword == "End"`
and the loop continues, so `End` is a no-op and trailing tokens after it
are parsed as further blocks; the reader stops and returns the
accumulated state only when the token stream is exhausted. -/
theorem c2_end_noop :
    (∀ (toks : List String) (st : RState), readRun ("End" :: toks) st = readRun toks st) ∧
    (∀ st : RState, readRun [] st = some (finishRead st)) :=
  ⟨fun toks st => readRun_end toks st, fun st => readRun_nil st⟩

/-- C2, counterexample to the claim as stated: for the valid prefix
`Dimension 2 Vertices 1 0.0 0.0 5` followed by `End`, appending the
trailing tokens `Vertices 1 9.0 9.0 7` changes the parsed result (the
trailing block replaces the point set), so tokens after `End` are
consumed. -/
theorem c2_end_counterexample :
    readTokens (["Dimension", "2", "Vertices", "1", "0.0", "0.0", "5", "End"] ++
        ["Vertices", "1", "9.0", "9.0", "7"]) =
      .ok (⟨[["9.0", "9.0"]], [], [(0, [7])], []⟩, []) ∧
    readTokens ["Dimension", "2", "Vertices", "1", "0.0", "0.0", "5", "End"] =
      .ok (⟨[["0.0", "0.0"]], [], [(0, [5])], []⟩, []) ∧
    ([["9.0", "9.0"]] : List (List String)) ≠ [["0.0", "0.0"]] :=
  ⟨rfl, rfl, by decide⟩

/-- C7: whenever the reader pulls, in keyword position, an alphabetic
token that is none of the meta, geometry, element or ignorable-auxiliary
keywords and is not `End`, it fails with `UnknownKeyword` naming that
token (the `assert keyword == "End"` in the final `else`), and `read`
returns no snapshot. -/
theorem c7_unknown_keyword (kw : String) (toks : List String) (st : RState)
    (ha : isAlphaKw kw = true)
    (h1 : kw ≠ "MeshVersionFormatted") (h2 : kw ≠ "Dimension") (h3 : kw ≠ "Vertices")
    (h4 : meshio_from_medit kw = none) (h5 : ignored_fields kw = none)
    (h6 : kw ≠ "End") :
    readRun (kw :: toks) st = some (.error (.unknownKeyword kw)) ∧
      readTokens (kw :: toks) = .error (.unknownKeyword kw) := by
  have hrr : ∀ st' : RState, readRun (kw :: toks) st' =
      some (.error (.unknownKeyword kw)) := by
    intro st'
    have hrun : readRun (kw :: toks) st' =
        readLoopF ((toks.length + 1) + 1) (kw :: toks) st' := rfl
    rw [hrun]
    simp only [readLoopF, h4, h5]
    rw [if_neg (by simp [ha]), if_neg h1, if_neg h2, if_neg h3, if_neg h6]
  refine ⟨hrr st, ?_⟩
  unfold readTokens
  rw [hrr initRState]
  rfl

/-- C7 witness: the keyword `Bogus` is rejected. -/
theorem c7_unknown_keyword_witness :
    readRun ["Bogus"] initRState = some (.error (.unknownKeyword "Bogus")) ∧
      readTokens ["Bogus"] = .error (.unknownKeyword "Bogus") :=
  c7_unknown_keyword "Bogus" [] initRState (by decide) (by decide) (by decide)
    (by decide) (by decide) (by decide) (by decide)

/-- C8: on an ignorable-auxiliary keyword with multiplier `mult`, the
reader pulls one count token `K` and then exactly `K * mult` further
tokens, discards them, records exactly the warning naming the keyword,
leaves every other component of the accumulated state unchanged, and
continues parsing at the next keyword. -/
theorem c8_ignored_block (kw : String) (mult K : Nat) (toks : List String) (st : RState)
    (hign : ignored_fields kw = some mult)
    (hlen : K * mult ≤ toks.length) :
    readRun (kw :: natToStr K :: toks) st =
      readRun (toks.drop (K * mult))
        { st with warnings := st.warnings ++ [ignoredWarning kw] } :=
  readRun_ignored (natToStr K) K st hign (parseInt_natToStr K) hlen

/-- C8 witness: a `Normals` block with count 2 consumes exactly six
trailing tokens and only adds the warning. -/
theorem c8_ignored_block_witness :
    readRun ("Normals" :: natToStr 2 :: ["a", "b", "c", "d", "e", "f", "End"]) initRState =
      readRun (["a", "b", "c", "d", "e", "f", "End"].drop (2 * 3))
        { initRState with warnings := initRState.warnings ++ [ignoredWarning "Normals"] } :=
  c8_ignored_block "Normals" 3 2 ["a", "b", "c", "d", "e", "f", "End"] initRState
    (by decide) (by decide)

/-- C9: a record count of `0` is valid: a `Vertices 0` block binds an
empty point set and an empty key-0 label sequence, an element block with
count `0` binds an empty table and an empty key-0 label sequence for its
family, and in both cases parsing continues directly at the tokens
following the count token. -/
theorem c9_zero_count_blocks :
    (∀ (toks : List String) (st : RState), 0 < st.dim →
      readRun ("Vertices" :: "0" :: toks) st =
        readRun toks
          { st with points := some [], point_data := updD 0 [] st.point_data }) ∧
    (∀ (kw name : String) (num : Nat) (toks : List String) (st : RState),
      meshio_from_medit kw = some (name, num) →
      readRun (kw :: "0" :: toks) st =
        readRun toks
          { st with
            cells := updD name [] st.cells,
            cell_data := updD name [(0, [])] st.cell_data }) := by
  constructor
  · intro toks st hdim
    have h := readRun_vertices "0" 0 st hdim (by decide)
      (show readVertexRows st.dim.toNat 0 toks = .ok ([], toks) from rfl)
    simpa [vertexPoints, vertexLabels] using h
  · intro kw name num toks st htbl
    have h := readRun_element "0" 0 st htbl (by decide)
      (show readCellRows num 0 toks = .ok ([], toks) from rfl)
    simpa [adaptZeroBase, rowLabels] using h

/-- C9 witness: both zero-count cases at a concrete state. -/
theorem c9_zero_count_blocks_witness :
    (readRun ["Vertices", "0", "End"] ⟨2, [], [], [], none, []⟩ =
      readRun ["End"] ⟨2, [], updD 0 [] [], [], some [], []⟩) ∧
    (readRun ["Triangles", "0", "End"] initRState =
      readRun ["End"]
        ⟨0, updD "triangle" [] [], [], updD "triangle" [(0, [])] [], none, []⟩) :=
  ⟨c9_zero_count_blocks.1 ["End"] ⟨2, [], [], [], none, []⟩ (by decide),
   c9_zero_count_blocks.2 "Triangles" "triangle" 3 ["End"] initRState (by decide)⟩

/-- C4: `next_items(n)` returns exactly the next `n` tokens of the
flattened stream in file order; comment lines and blank lines contribute
no tokens and never terminate a pull early, so inserting such a line
anywhere leaves both the token stream and the parsed result unchanged. -/
theorem c4_token_stream :
    (∀ (n : Nat) (st : ItemReader), n ≤ (remTokens st).length →
      ∃ st', nextItems n st = some ((remTokens st).take n, st') ∧
        remTokens st' = (remTokens st).drop n) ∧
    (∀ (pre post : List String) (l : String), skippable l = true →
      flatTokens (pre ++ l :: post) = flatTokens (pre ++ post)) ∧
    (∀ (pre post : List String) (l : String), skippable l = true →
      read_buffer (pre ++ l :: post) = read_buffer (pre ++ post)) := by
  refine ⟨nextItems_enough, flatTokens_skippable_middle, ?_⟩
  intro pre post l hl
  unfold read_buffer
  rw [flatTokens_skippable_middle pre post l hl]

/-- C4 witness: a pull of three tokens crosses a token-bearing line, a
comment line and a blank line; a comment line inserted between blocks
leaves the parsed file unchanged. -/
theorem c4_token_stream_witness :
    (3 ≤ (remTokens (ItemReader.init ["a b", "# c", "", "d e"])).length ∧
      ∃ st', nextItems 3 (ItemReader.init ["a b", "# c", "", "d e"]) =
          some ((remTokens (ItemReader.init ["a b", "# c", "", "d e"])).take 3, st') ∧
        remTokens st' = (remTokens (ItemReader.init ["a b", "# c", "", "d e"])).drop 3) ∧
    read_buffer (["Dimension", "1"] ++ "# note" :: ["Vertices", "0", "End"]) =
      read_buffer (["Dimension", "1"] ++ ["Vertices", "0", "End"]) :=
  ⟨⟨by decide, c4_token_stream.1 3 (ItemReader.init ["a b", "# c", "", "d e"]) (by decide)⟩,
   c4_token_stream.2.2 ["Dimension", "1"] ["Vertices", "0", "End"] "# note" (by decide)⟩

theorem readRun_vertices_err (cntTok : String) (n : Nat) {toks : List String}
    {e : ReadErr} (st : RState)
    (hdim : 0 < st.dim)
    (hcnt : parseInt cntTok = some ((n : Nat) : Int))
    (herr : readVertexRows st.dim.toNat n toks = .error e) :
    readRun ("Vertices" :: cntTok :: toks) st = some (.error e) := by
  have hrun : readRun ("Vertices" :: cntTok :: toks) st =
      readLoopF ((toks.length + 2) + 1) ("Vertices" :: cntTok :: toks) st := rfl
  rw [hrun]
  simp only [readLoopF, pull_one_cons, List.headD_cons, hcnt, Int.toNat_ofNat, herr,
    if_true]
  rw [if_neg (by omega : ¬st.dim ≤ 0), if_neg (by omega : ¬((n : Nat) : Int) < 0)]
  rw [if_neg (by decide), if_neg (by decide), if_neg (by decide)]

theorem readVertexRows_eof :
    ∀ (c : Nat) (toks : List String), toks.length < 2 * c →
      (∀ t ∈ toks, t = "0") →
      readVertexRows 1 c toks = .error .unexpectedEOF := by
  intro c
  induction c with
  | zero => intro toks h _; omega
  | succ c ih =>
    intro toks hlen hall
    simp only [readVertexRows]
    rcases toks with _ | ⟨a, _ | ⟨b, rest⟩⟩
    · have hp : pull (1 + 1) ([] : List String) = .error .unexpectedEOF := by
        unfold pull
        rw [if_neg (by simp)]
      simp only [hp]
    · have hp : pull (1 + 1) [a] = .error .unexpectedEOF := by
        unfold pull
        rw [if_neg (by simp)]
      simp only [hp]
    · have ha : a = "0" := hall a (by simp)
      have hb : b = "0" := hall b (by simp)
      subst ha
      subst hb
      have hp : pull (1 + 1) ("0" :: "0" :: rest) = .ok (["0", "0"], rest) := by
        rw [pull_of_le (by simp)]
        rfl
      have hlbl : parseInt ((["0", "0"] : List String).getLastD "") = some (0 : Int) := by
        decide
      simp only [hp, hlbl]
      rw [ih rest (by simp at hlen ⊢; omega) (fun t ht => hall t (by simp [ht]))]
      rfl

/-- C6: when the line source is exhausted before `n` tokens can be
produced, `next_items` fails with the `StopIteration`
(*UnexpectedEndOfInput*) condition and returns no partial token list;
and when this happens mid-block (here: inside a `Vertices` block whose
count promises more records than the stream holds), `read_buffer`
surfaces exactly that error to its caller, with no partial snapshot. -/
theorem c6_unexpected_eof :
    (∀ (n : Nat) (st : ItemReader), (remTokens st).length < n → nextItems n st = none) ∧
    (∀ cnt : Nat, 1 ≤ cnt →
      readTokens (["Dimension", "1", "Vertices", natToStr cnt] ++
        List.replicate (2 * cnt - 1) "0") = .error .unexpectedEOF) := by
  refine ⟨nextItems_exhausted, ?_⟩
  intro cnt hcnt
  unfold readTokens
  have hstep : readRun (["Dimension", "1", "Vertices", natToStr cnt] ++
      List.replicate (2 * cnt - 1) "0") initRState =
      some (.error .unexpectedEOF) := by
    have hd : readRun (["Dimension", "1", "Vertices", natToStr cnt] ++
        List.replicate (2 * cnt - 1) "0") initRState =
        readRun ("Vertices" :: natToStr cnt :: List.replicate (2 * cnt - 1) "0")
          { initRState with dim := 1 } :=
      readRun_dimension "1" 1 _ initRState (by decide)
    rw [hd]
    exact readRun_vertices_err (natToStr cnt) cnt { initRState with dim := 1 }
      (by decide) (parseInt_natToStr cnt)
      (readVertexRows_eof cnt _ (by simp; omega)
        (fun t ht => List.eq_of_mem_replicate ht))
  rw [hstep]
  rfl

/-- C6 witness: concrete instances of both parts. -/
theorem c6_unexpected_eof_witness :
    ((remTokens (ItemReader.init ["a", "# b"])).length < 2 ∧
      nextItems 2 (ItemReader.init ["a", "# b"]) = none) ∧
    readTokens (["Dimension", "1", "Vertices", natToStr 2] ++
        List.replicate (2 * 2 - 1) "0") = .error .unexpectedEOF :=
  ⟨⟨by decide, c6_unexpected_eof.1 2 (ItemReader.init ["a", "# b"]) (by decide)⟩,
   c6_unexpected_eof.2 2 (by decide)⟩

theorem readLoopF_no_vertices :
    ∀ (fuel : Nat) (toks : List String) (st : RState) (r : MeditData × List String),
      st.points = none → readLoopF fuel toks st = some (.ok r) → "Vertices" ∈ toks := by
  intro fuel
  induction fuel with
  | zero =>
    intro toks st r hp h
    exact absurd h (by simp [readLoopF])
  | succ fuel ih =>
    intro toks st r hp h
    cases toks with
    | nil =>
      simp only [readLoopF, finishRead, hp] at h
      simp at h
    | cons kw rest =>
      simp only [readLoopF] at h
      split at h
      · simp at h
      · split at h
        · -- MeshVersionFormatted
          split at h
          · simp at h
          · rename_i v rest' hpl
            split at h
            · obtain ⟨-, hr', -⟩ := pull_ok hpl
              have := ih rest' st r hp h
              exact List.mem_cons_of_mem kw (hr' ▸ this |> (List.drop_subset _ _))
            · simp at h
        · split at h
          · -- Dimension
            split at h
            · simp at h
            · rename_i v rest' hpl
              split at h
              · simp at h
              · obtain ⟨-, hr', -⟩ := pull_ok hpl
                have := ih rest' _ r (by exact hp) h
                exact List.mem_cons_of_mem kw (hr' ▸ this |> (List.drop_subset _ _))
          · split at h
            · -- Vertices
              rename_i hkw
              rw [hkw]
              exact List.mem_cons_self _ _
            · split at h
              · -- element keyword
                split at h
                · simp at h
                · rename_i v rest' hpl
                  split at h
                  · simp at h
                  · split at h
                    · simp at h
                    · split at h
                      · simp at h
                      · rename_i rows rest2 hrows
                        obtain ⟨-, hr', -⟩ := pull_ok hpl
                        obtain ⟨k, hk⟩ := readCellRows_drop hrows
                        have hm := ih rest2 _ r (by exact hp) h
                        rw [hk, hr'] at hm
                        exact List.mem_cons_of_mem kw
                          (List.drop_subset _ _ (List.drop_subset _ _ hm))
              · split at h
                · -- ignored field
                  split at h
                  · simp at h
                  · rename_i v rest' hpl
                    split at h
                    · simp at h
                    · split at h
                      · simp at h
                      · rename_i w rest2 hpl2
                        obtain ⟨-, hr', -⟩ := pull_ok hpl
                        obtain ⟨-, hr2, -⟩ := pull_ok hpl2
                        have hm := ih rest2 _ r (by exact hp) h
                        rw [hr2, hr'] at hm
                        exact List.mem_cons_of_mem kw
                          (List.drop_subset _ _ (List.drop_subset _ _ hm))
                · split at h
                  · exact List.mem_cons_of_mem kw (ih rest st r hp h)
                  · simp at h

/-- C10: a successful `read_buffer` requires a `Vertices` block — on any
token stream with no `Vertices` token the function cannot return a
snapshot, and on inputs that end (`End` alone, or an empty file) it
fails with the `UnboundLocalError` of `return points, ...`, because
`points` is only bound inside the `Vertices` branch. -/
theorem c10_unbound_points :
    (∀ (toks : List String) (r : MeditData × List String),
      "Vertices" ∉ toks → readTokens toks ≠ .ok r) ∧
    readTokens ["End"] = .error .unboundLocalPoints ∧
    readTokens [] = .error .unboundLocalPoints := by
  refine ⟨?_, rfl, rfl⟩
  intro toks r hnv hok
  unfold readTokens at hok
  rcases hrr : readRun toks initRState with _ | v
  · rw [hrr] at hok
    simp at hok
  · rw [hrr] at hok
    simp only [Option.getD_some] at hok
    subst hok
    exact hnv (readLoopF_no_vertices _ toks initRState r rfl hrr)

/-- C10 witness: `End` alone is rejected, not returned as an empty
snapshot. -/
theorem c10_unbound_points_witness :
    readTokens ["End"] ≠ .ok (⟨[], [], [], []⟩, []) :=
  c10_unbound_points.1 ["End"] (⟨[], [], [], []⟩, []) (by decide)

theorem parseInts_intToStr (l : List Int) : parseInts (l.map intToStr) = .ok l := by
  induction l with
  | nil => rfl
  | cons a l ih =>
    simp only [List.map_cons, parseInts, parseInt_intToStr, ih]
    rfl

/-- C5: index-base conversion is consistent in both directions.  The row
the writer emits for a cell record carries exactly the stored 0-based
indices plus one (then the label); the reader parses such a record back
to those 1-based integers; and the reader's `cells[...] -= 1` recovers
exactly the original indices. -/
theorem c5_index_base (row : List Int) (lbl : Int) (rest : List String) :
    tokenizeLine (writeCellRow row lbl) =
      some (row.map (fun i => intToStr (i + 1)) ++ [intToStr lbl]) ∧
    readCellRows row.length 1
        ((row.map (fun i => intToStr (i + 1)) ++ [intToStr lbl]) ++ rest) =
      .ok ([(row.map (fun i => i + 1), lbl)], rest) ∧
    adaptZeroBase [(row.map (fun i => i + 1), lbl)] = [row] := by
  have htoks : (row.map (fun i => intToStr (i + 1)) ++ [intToStr lbl]) =
      (row.map (fun i => i + 1) ++ [lbl]).map intToStr := by
    simp [List.map_map, Function.comp]
  refine ⟨?_, ?_, ?_⟩
  · refine tokenizeLine_join _ (by simp) ?_
    intro t ht
    rcases List.mem_append.mp ht with h | h
    · obtain ⟨i, -, hi⟩ := List.mem_map.mp h
      rw [← hi]
      exact goodTok_intToStr _
    · rw [List.mem_singleton.mp h]
      exact goodTok_intToStr _
  · have hlen : (row.map (fun i => intToStr (i + 1)) ++ [intToStr lbl]).length =
        row.length + 1 := by simp
    have hp : pull (row.length + 1)
        ((row.map (fun i => intToStr (i + 1)) ++ [intToStr lbl]) ++ rest) =
        .ok (row.map (fun i => intToStr (i + 1)) ++ [intToStr lbl], rest) := by
      rw [pull_of_le
        (by simp only [List.length_append, List.length_map, List.length_cons,
          List.length_nil]; omega)]
      rw [← hlen, List.take_left, List.drop_left]
    simp only [readCellRows, hp]
    rw [htoks, parseInts_intToStr]
    simp only [List.dropLast_concat, List.getLastD_concat]
    rfl
  · clear htoks
    simp only [adaptZeroBase, List.map_cons, List.map_nil, List.map_map,
      List.cons.injEq, and_true]
    induction row with
    | nil => rfl
    | cons a l ihr =>
      simp only [List.map_cons, Function.comp_apply, List.cons.injEq]
      exact ⟨by omega, ihr⟩

def exceptIsOk {ε α : Type} : Except ε α → Bool
  | .ok _ => true
  | .error _ => false

/-- C3, counterexample to the claim as stated: a snapshot with two point
label sequences, one of them under key `0`, is written without any
error — the writer silently uses the key-`0` sequence and ignores the
other (`if 0 in mesh.point_data` has no assert). -/
theorem c3_counterexample :
    exceptIsOk (write ⟨1, [["0.0"]], [(0, [1]), (1, [2])], [], []⟩) = true ∧
    2 ≤ (Mesh.point_data ⟨1, [["0.0"]], [(0, [1]), (1, [2])], [], []⟩).length :=
  ⟨rfl, by decide⟩

/-- C3 (amended): the writer's `assert len(...) == 1` fires — aborting
the whole write with *MultiLabelUnsupported* — only when the label
dictionary in play has no key `0`: for the point set, when
`point_data` has at least two sequences and none under key `0`; for a
representable cell family it reaches, when the family's label dictionary
has at least two sequences and none under key `0`.  When a key-`0`
sequence is present, any additional sequences are silently ignored
instead of rejected. -/
theorem c3_multi_label :
    (∀ m : Mesh, lookupD 0 m.point_data = none → 2 ≤ m.point_data.length →
      write m = .error .multiLabelUnsupported) ∧
    (∀ (m : Mesh) (key : String) (data : List (List Int))
        (p : String × Nat) (inner : List (Nat × List Int)) (pl : List Int),
      m.cells = [(key, data)] →
      pointLabelsOf m = .ok pl →
      medit_from_meshio key = some p →
      lookupD key m.cell_data = some inner →
      lookupD 0 inner = none → 2 ≤ inner.length →
      write m = .error .multiLabelUnsupported) := by
  constructor
  · intro m h0 hlen
    have hne : ¬m.point_data.isEmpty = true := by
      intro h
      rw [List.isEmpty_iff] at h
      rw [h] at hlen
      simp at hlen
    have hpe : pointLabelsOf m = .error .multiLabelUnsupported := by
      unfold pointLabelsOf
      rw [if_neg hne]
      simp only [h0]
      rw [if_neg (by omega)]
    unfold write
    rw [hpe]
  · intro m key data p inner pl hcells hok htbl hinner h0i hlen
    obtain ⟨mname, mnum⟩ := p
    have hcdne : ¬m.cell_data.isEmpty = true := by
      intro h
      rw [List.isEmpty_iff] at h
      rw [h] at hinner
      exact Option.noConfusion hinner
    have hce : cellLabelsOf m key data.length = .error .multiLabelUnsupported := by
      unfold cellLabelsOf
      rw [if_neg hcdne]
      simp only [hinner, h0i]
      rw [if_neg (by omega)]
    unfold write
    rw [hok, hcells]
    unfold writeCellBlocks
    rw [htbl, hce]

/-- C3 witness: two point label sequences, neither under key `0`. -/
theorem c3_multi_label_witness :
    write ⟨1, [["0.0"]], [(1, [1]), (2, [2])], [], []⟩ =
      .error .multiLabelUnsupported :=
  c3_multi_label.1 ⟨1, [["0.0"]], [(1, [1]), (2, [2])], [], []⟩ (by decide) (by decide)

/-! ## Round-trip infrastructure -/

theorem updD_fresh {α β : Type} [DecidableEq α] (k : α) (v : β) :
    ∀ (l : List (α × β)), lookupD k l = none → updD k v l = l ++ [(k, v)] := by
  intro l
  induction l with
  | nil => intro _; rfl
  | cons kv rest ih =>
    intro h
    obtain ⟨k', v'⟩ := kv
    simp only [lookupD] at h
    by_cases hk : k = k'
    · rw [if_pos hk] at h
      exact Option.noConfusion h
    · rw [if_neg hk] at h
      simp only [updD, if_neg hk, ih h, List.cons_append]

theorem lookupD_append_none {α β : Type} [DecidableEq α] (k : α) :
    ∀ (l₁ l₂ : List (α × β)), lookupD k l₁ = none → lookupD k l₂ = none →
      lookupD k (l₁ ++ l₂) = none := by
  intro l₁
  induction l₁ with
  | nil => intro l₂ _ h; exact h
  | cons kv rest ih =>
    intro l₂ h1 h2
    obtain ⟨k', v'⟩ := kv
    simp only [lookupD] at h1 ⊢
    by_cases hk : k = k'
    · rw [if_pos hk] at h1
      exact Option.noConfusion h1
    · rw [if_neg hk] at h1
      rw [if_neg hk]
      exact ih l₂ h1 h2

theorem lookupD_singleton_ne {α β : Type} [DecidableEq α] {k k' : α} (v : β)
    (h : k ≠ k') : lookupD k [(k', v)] = none := by
  simp only [lookupD, if_neg h]

theorem lookupD_map_self {A B : Type} :
    ∀ (cl : List (String × A)) (F : String × A → B) (kd : String × A),
      (cl.map (·.1)).Nodup → kd ∈ cl →
      lookupD kd.1 (cl.map (fun x => (x.1, F x))) = some (F kd) := by
  intro cl
  induction cl with
  | nil => intro F kd _ h; simp at h
  | cons x rest ih =>
    intro F kd hnd hmem
    simp only [List.map_cons, List.nodup_cons] at hnd
    rcases List.mem_cons.mp hmem with h | h
    · subst h
      simp [lookupD]
    · have hne : kd.1 ≠ x.1 := by
        intro he
        exact hnd.1 (he ▸ List.mem_map_of_mem (·.1) h)
      simp only [List.map_cons, lookupD, if_neg hne]
      exact ih F kd hnd.2 h

theorem vertexPoints_zip :
    ∀ (pts : List (List String)) (lbls : List Int), lbls.length = pts.length →
      vertexPoints (List.zipWith (fun p l => (p, l)) pts lbls) = pts := by
  intro pts
  induction pts with
  | nil => intro lbls _; rfl
  | cons p pts ih =>
    intro lbls hl
    cases lbls with
    | nil => simp at hl
    | cons l lbls =>
      simp only [List.zipWith_cons_cons, vertexPoints, List.map_cons]
      have := ih lbls (by simpa using hl)
      simp only [vertexPoints] at this
      rw [this]

theorem vertexLabels_zip :
    ∀ (pts : List (List String)) (lbls : List Int), lbls.length = pts.length →
      vertexLabels (List.zipWith (fun p l => (p, l)) pts lbls) = lbls := by
  intro pts
  induction pts with
  | nil =>
    intro lbls hl
    cases lbls with
    | nil => rfl
    | cons l lbls => simp at hl
  | cons p pts ih =>
    intro lbls hl
    cases lbls with
    | nil => simp at hl
    | cons l lbls =>
      simp only [List.zipWith_cons_cons, vertexLabels, List.map_cons]
      have := ih lbls (by simpa using hl)
      simp only [vertexLabels] at this
      rw [this]

theorem adaptZeroBase_zip :
    ∀ (rows : List (List Int)) (lbls : List Int), lbls.length = rows.length →
      adaptZeroBase
        (List.zipWith (fun r l => (r.map (fun i => i + 1), l)) rows lbls) = rows := by
  intro rows
  induction rows with
  | nil => intro lbls _; rfl
  | cons r rows ih =>
    intro lbls hl
    cases lbls with
    | nil => simp at hl
    | cons l lbls =>
      simp only [List.zipWith_cons_cons, adaptZeroBase, List.map_cons, List.map_map]
      have := ih lbls (by simpa using hl)
      simp only [adaptZeroBase] at this
      rw [this]
      simp only [List.cons.injEq, and_true]
      have hid : ∀ i : Int, ((fun i => i - 1) ∘ fun i => i + 1) i = i := by
        intro i
        simp
      clear ih hl this
      induction r with
      | nil => rfl
      | cons a as ihr =>
        simp only [List.map_cons, hid, List.cons.injEq, true_and]
        exact ihr

theorem rowLabels_zip :
    ∀ (rows : List (List Int)) (lbls : List Int), lbls.length = rows.length →
      rowLabels
        (List.zipWith (fun r l => (r.map (fun i => i + 1), l)) rows lbls) = lbls := by
  intro rows
  induction rows with
  | nil =>
    intro lbls hl
    cases lbls with
    | nil => rfl
    | cons l lbls => simp at hl
  | cons r rows ih =>
    intro lbls hl
    cases lbls with
    | nil => simp at hl
    | cons l lbls =>
      simp only [List.zipWith_cons_cons, rowLabels, List.map_cons]
      have := ih lbls (by simpa using hl)
      simp only [rowLabels] at this
      rw [this]

theorem readVertexRows_written (d : Nat) :
    ∀ (pts : List (List String)) (lbls : List Int) (rest : List String),
    (∀ p ∈ pts, p.length = d ∧ ∀ t ∈ p, goodTok t = true) →
    lbls.length = pts.length →
    readVertexRows d pts.length
        (flatTokens (List.zipWith writeVertexRow pts lbls) ++ rest) =
      .ok (List.zipWith (fun p l => (p, l)) pts lbls, rest) := by
  intro pts
  induction pts with
  | nil =>
    intro lbls rest _ hl
    cases lbls with
    | nil => rfl
    | cons l lbls => simp at hl
  | cons p pts ih =>
    intro lbls rest hgood hl
    cases lbls with
    | nil => simp at hl
    | cons l lbls =>
      obtain ⟨hp, hptok⟩ := hgood p (by simp)
      have hline : tokenizeLine (writeVertexRow p l) = some (p ++ [intToStr l]) := by
        refine tokenizeLine_join _ (by simp) ?_
        intro t ht
        rcases List.mem_append.mp ht with h | h
        · exact hptok t h
        · rw [List.mem_singleton.mp h]
          exact goodTok_intToStr _
      have hlen2 : (p ++ [intToStr l]).length = d + 1 := by simp [hp]
      simp only [List.zipWith_cons_cons, flatTokens_cons, hline, List.length_cons]
      rw [List.append_assoc]
      simp only [readVertexRows]
      have hpull : pull (d + 1)
          ((p ++ [intToStr l]) ++
            (flatTokens (List.zipWith writeVertexRow pts lbls) ++ rest)) =
          .ok (p ++ [intToStr l],
            flatTokens (List.zipWith writeVertexRow pts lbls) ++ rest) := by
        rw [pull_of_le (by simp only [List.length_append, hlen2]; omega)]
        rw [← hlen2, List.take_left, List.drop_left]
      rw [hpull]
      simp only [List.getLastD_concat, parseInt_intToStr, List.dropLast_concat]
      rw [ih lbls rest (fun q hq => hgood q (by simp [hq])) (by simpa using hl)]
      rfl

theorem readCellRows_written (num : Nat) :
    ∀ (rows : List (List Int)) (lbls : List Int) (rest : List String),
    (∀ r ∈ rows, r.length = num) →
    lbls.length = rows.length →
    readCellRows num rows.length
        (flatTokens (List.zipWith writeCellRow rows lbls) ++ rest) =
      .ok (List.zipWith (fun r l => (r.map (fun i => i + 1), l)) rows lbls, rest) := by
  intro rows
  induction rows with
  | nil =>
    intro lbls rest _ hl
    cases lbls with
    | nil => rfl
    | cons l lbls => simp at hl
  | cons r rows ih =>
    intro lbls rest harity hl
    cases lbls with
    | nil => simp at hl
    | cons l lbls =>
      have hr : r.length = num := harity r (by simp)
      have htoks : (r.map (fun i => intToStr (i + 1)) ++ [intToStr l]) =
          (r.map (fun i => i + 1) ++ [l]).map intToStr := by
        simp [List.map_map, Function.comp]
      have hline : tokenizeLine (writeCellRow r l) =
          some (r.map (fun i => intToStr (i + 1)) ++ [intToStr l]) := by
        refine tokenizeLine_join _ (by simp) ?_
        intro t ht
        rcases List.mem_append.mp ht with h | h
        · obtain ⟨i, -, hi⟩ := List.mem_map.mp h
          rw [← hi]
          exact goodTok_intToStr _
        · rw [List.mem_singleton.mp h]
          exact goodTok_intToStr _
      have hlen2 : (r.map (fun i => intToStr (i + 1)) ++ [intToStr l]).length =
          num + 1 := by simp [hr]
      simp only [List.zipWith_cons_cons, flatTokens_cons, hline, List.length_cons]
      rw [List.append_assoc]
      simp only [readCellRows]
      have hpull : pull (num + 1)
          ((r.map (fun i => intToStr (i + 1)) ++ [intToStr l]) ++
            (flatTokens (List.zipWith writeCellRow rows lbls) ++ rest)) =
          .ok (r.map (fun i => intToStr (i + 1)) ++ [intToStr l],
            flatTokens (List.zipWith writeCellRow rows lbls) ++ rest) := by
        rw [pull_of_le (by simp only [List.length_append, hlen2]; omega)]
        rw [← hlen2, List.take_left, List.drop_left]
      rw [hpull]
      simp only []
      rw [htoks, parseInts_intToStr]
      simp only [List.dropLast_concat, List.getLastD_concat]
      rw [ih lbls rest (fun q hq => harity q (by simp [hq])) (by simpa using hl)]
      rfl

theorem medit_inverse {key : String} {p : String × Nat}
    (h : medit_from_meshio key = some p) :
    meshio_from_medit p.1 = some (key, p.2) ∧ goodTok p.1 = true := by
  unfold medit_from_meshio at h
  split_ifs at h with h1 h2 h3 h4 h5
  · subst h1
    obtain rfl := (Option.some.inj h).symm
    exact ⟨by decide, by decide⟩
  · subst h2
    obtain rfl := (Option.some.inj h).symm
    exact ⟨by decide, by decide⟩
  · subst h3
    obtain rfl := (Option.some.inj h).symm
    exact ⟨by decide, by decide⟩
  · subst h4
    obtain rfl := (Option.some.inj h).symm
    exact ⟨by decide, by decide⟩
  · subst h5
    obtain rfl := (Option.some.inj h).symm
    exact ⟨by decide, by decide⟩

theorem readRun_written_block {key mname : String} {num : Nat}
    (data : List (List Int)) (lbls : List Int) (rest : List String) (st : RState)
    (htbl : medit_from_meshio key = some (mname, num))
    (harity : ∀ r ∈ data, r.length = num)
    (hlen : lbls.length = data.length) :
    readRun (flatTokens (["", mname, natToStr data.length] ++
        List.zipWith writeCellRow data lbls) ++ rest) st =
      readRun rest
        { st with
          cells := updD key data st.cells,
          cell_data := updD key [(0, lbls)] st.cell_data } := by
  obtain ⟨hmap, hgood⟩ := medit_inverse htbl
  have h0 : tokenizeLine "" = none := rfl
  have h1 : tokenizeLine mname = some [mname] := tokenizeLine_single mname hgood
  have h2 : tokenizeLine (natToStr data.length) = some [natToStr data.length] :=
    tokenizeLine_single _ (goodTok_natToStr _)
  rw [flatTokens_append]
  simp only [flatTokens_cons, flatTokens, h0, h1, h2, List.nil_append,
    List.cons_append, List.append_nil, List.append_assoc]
  rw [readRun_element (natToStr data.length) data.length st hmap
    (parseInt_natToStr data.length)
    (readCellRows_written num data lbls rest harity hlen)]
  rw [adaptZeroBase_zip data lbls hlen, rowLabels_zip data lbls hlen]

/-- Net effect of a list of element blocks on the reader state. -/
def applyBlocks (cf : String → List Int) :
    List (String × List (List Int)) → RState → RState
  | [], st => st
  | kd :: cl, st =>
    applyBlocks cf cl
      { st with
        cells := updD kd.1 kd.2 st.cells,
        cell_data := updD kd.1 [(0, cf kd.1)] st.cell_data }

theorem applyBlocks_misc (cf : String → List Int) :
    ∀ (cl : List (String × List (List Int))) (st : RState),
      (applyBlocks cf cl st).dim = st.dim ∧
      (applyBlocks cf cl st).points = st.points ∧
      (applyBlocks cf cl st).point_data = st.point_data ∧
      (applyBlocks cf cl st).warnings = st.warnings := by
  intro cl
  induction cl with
  | nil => intro st; exact ⟨rfl, rfl, rfl, rfl⟩
  | cons kd cl ih => intro st; exact ih _

theorem applyBlocks_cells (cf : String → List Int) :
    ∀ (cl : List (String × List (List Int))) (st : RState),
      (cl.map (·.1)).Nodup →
      (∀ kd ∈ cl, lookupD kd.1 st.cells = none) →
      (∀ kd ∈ cl, lookupD kd.1 st.cell_data = none) →
      (applyBlocks cf cl st).cells = st.cells ++ cl ∧
      (applyBlocks cf cl st).cell_data =
        st.cell_data ++ cl.map (fun kd => (kd.1, [(0, cf kd.1)])) := by
  intro cl
  induction cl with
  | nil =>
    intro st _ _ _
    exact ⟨by simp [applyBlocks], by simp [applyBlocks]⟩
  | cons kd cl ih =>
    intro st hnd hfc hfd
    simp only [List.map_cons, List.nodup_cons] at hnd
    have hc1 : lookupD kd.1 st.cells = none := hfc kd (by simp)
    have hd1 : lookupD kd.1 st.cell_data = none := hfd kd (by simp)
    have hkeys : ∀ x ∈ cl, x.1 ≠ kd.1 := by
      intro x hx he
      exact hnd.1 (he ▸ List.mem_map_of_mem (·.1) hx)
    have hstep : applyBlocks cf (kd :: cl) st =
        applyBlocks cf cl
          { st with
            cells := st.cells ++ [(kd.1, kd.2)],
            cell_data := st.cell_data ++ [(kd.1, [(0, cf kd.1)])] } := by
      simp only [applyBlocks, updD_fresh _ _ _ hc1, updD_fresh _ _ _ hd1]
    rw [hstep]
    obtain ⟨ha, hb⟩ := ih
      { st with
        cells := st.cells ++ [(kd.1, kd.2)],
        cell_data := st.cell_data ++ [(kd.1, [(0, cf kd.1)])] }
      hnd.2
      (fun x hx => lookupD_append_none _ _ _ (hfc x (by simp [hx]))
        (lookupD_singleton_ne _ (hkeys x hx)))
      (fun x hx => lookupD_append_none _ _ _ (hfd x (by simp [hx]))
        (lookupD_singleton_ne _ (hkeys x hx)))
    constructor
    · rw [ha]
      simp
    · rw [hb]
      simp

theorem blocks_round_trip (m : Mesh) (cf : String → List Int) :
    ∀ (cl : List (String × List (List Int))),
    (∀ kd ∈ cl, ∃ p, medit_from_meshio kd.1 = some p ∧ ∀ r ∈ kd.2, r.length = p.2) →
    (∀ kd ∈ cl, cellLabelsOf m kd.1 kd.2.length = .ok (cf kd.1) ∧
      (cf kd.1).length = kd.2.length) →
    ∃ ls, writeCellBlocks m cl = .ok (ls, []) ∧
      ∀ (st : RState) (rest : List String),
        readRun (flatTokens ls ++ rest) st = readRun rest (applyBlocks cf cl st) := by
  intro cl
  induction cl with
  | nil =>
    intro _ _
    exact ⟨[], rfl, fun st rest => by simp [flatTokens, applyBlocks]⟩
  | cons kd cl ih =>
    intro htbl hlbl
    obtain ⟨⟨mname, num⟩, hmap, harity⟩ := htbl kd (by simp)
    obtain ⟨hlab, hlablen⟩ := hlbl kd (by simp)
    obtain ⟨ls', hw', hr'⟩ := ih (fun x hx => htbl x (by simp [hx]))
      (fun x hx => hlbl x (by simp [hx]))
    refine ⟨(["", mname, natToStr kd.2.length] ++
        List.zipWith writeCellRow kd.2 (cf kd.1)) ++ ls', ?_, ?_⟩
    · show writeCellBlocks m (kd :: cl) = _
      obtain ⟨key, data⟩ := kd
      simp only [writeCellBlocks, hmap, hlab, hw', Except.map]
    · intro st rest
      rw [flatTokens_append, List.append_assoc]
      rw [readRun_written_block kd.2 (cf kd.1) (flatTokens ls' ++ rest) st hmap
        harity hlablen]
      rw [hr' _ rest]
      rfl

theorem finish_after_blocks (cf : String → List Int)
    (cl : List (String × List (List Int))) (d : Int) (pts : List (List String))
    (pd : List (Nat × List Int)) (hnd : (cl.map (·.1)).Nodup) :
    finishRead (applyBlocks cf cl ⟨d, [], pd, [], some pts, []⟩) =
      .ok (⟨pts, cl, pd, cl.map (fun kd => (kd.1, [(0, cf kd.1)]))⟩, []) := by
  obtain ⟨h1, h2, h3, h4⟩ := applyBlocks_misc cf cl ⟨d, [], pd, [], some pts, []⟩
  obtain ⟨h5, h6⟩ := applyBlocks_cells cf cl ⟨d, [], pd, [], some pts, []⟩ hnd
    (fun _ _ => rfl) (fun _ _ => rfl)
  have h2' : (applyBlocks cf cl ⟨d, [], pd, [], some pts, []⟩).points = some pts := h2
  have h3' : (applyBlocks cf cl ⟨d, [], pd, [], some pts, []⟩).point_data = pd := h3
  have h4' : (applyBlocks cf cl ⟨d, [], pd, [], some pts, []⟩).warnings = [] := h4
  have h5' : (applyBlocks cf cl ⟨d, [], pd, [], some pts, []⟩).cells = cl := by
    simpa using h5
  have h6' : (applyBlocks cf cl ⟨d, [], pd, [], some pts, []⟩).cell_data =
      cl.map (fun kd => (kd.1, [(0, cf kd.1)])) := by
    simpa using h6
  simp [finishRead, h2', h3', h4', h5', h6']

/-- C1 (amended): round-trip.  For a snapshot with positive dimension,
well-formed coordinate tokens, label sequences (when present) stored
under key `0` — `point_data` empty or exactly `{0: pl}`, `cell_data`
empty or exactly one `{0: …}` entry per family in family order — and
every cell family representable with matching arity, `write` succeeds
with no warnings and reading its output back yields exactly the original
points, cells and label sequences, with absent label sequences replaced
by all-1 sequences under key `0`. -/
theorem c1_round_trip (m : Mesh) (pl : List Int) (cf : String → List Int)
    (hdim : 1 ≤ m.dim)
    (hpts : ∀ p ∈ m.points, p.length = m.dim ∧ ∀ t ∈ p, goodTok t = true)
    (hpd : (m.point_data = [] ∧ pl = List.replicate m.points.length 1) ∨
           (m.point_data = [(0, pl)] ∧ pl.length = m.points.length))
    (hkeys : (m.cells.map (·.1)).Nodup)
    (hcells : ∀ kd ∈ m.cells, ∃ p, medit_from_meshio kd.1 = some p ∧
        ∀ r ∈ kd.2, r.length = p.2)
    (hcd : (m.cell_data = [] ∧
             ∀ kd ∈ m.cells, cf kd.1 = List.replicate kd.2.length 1) ∨
           (m.cell_data = m.cells.map (fun kd => (kd.1, [(0, cf kd.1)])) ∧
            ∀ kd ∈ m.cells, (cf kd.1).length = kd.2.length)) :
    ∃ ls, write m = .ok (ls, []) ∧
      read_buffer ls =
        .ok (⟨m.points, m.cells, [(0, pl)],
          m.cells.map (fun kd => (kd.1, [(0, cf kd.1)]))⟩, []) := by
  have hpllen : pl.length = m.points.length := by
    rcases hpd with ⟨-, rfl⟩ | ⟨-, h⟩
    · simp
    · exact h
  have hpok : pointLabelsOf m = .ok pl := by
    rcases hpd with ⟨he, rfl⟩ | ⟨he, -⟩
    · unfold pointLabelsOf
      rw [he]
      rfl
    · unfold pointLabelsOf
      rw [he]
      rfl
  have hlbl : ∀ kd ∈ m.cells, cellLabelsOf m kd.1 kd.2.length = .ok (cf kd.1) ∧
      (cf kd.1).length = kd.2.length := by
    intro kd hkd
    rcases hcd with ⟨he, hall⟩ | ⟨he, hall⟩
    · refine ⟨?_, by rw [hall kd hkd]; simp⟩
      unfold cellLabelsOf
      rw [he, hall kd hkd]
      rfl
    · refine ⟨?_, hall kd hkd⟩
      unfold cellLabelsOf
      rw [he]
      have hne : m.cells ≠ [] := by
        intro h
        rw [h] at hkd
        simp at hkd
      rw [if_neg (by simp [List.isEmpty_iff, hne])]
      rw [lookupD_map_self m.cells (fun kd => [(0, cf kd.1)]) kd hkeys hkd]
      rfl
  obtain ⟨cls, hwb, hrb⟩ := blocks_round_trip m cf m.cells hcells hlbl
  refine ⟨["MeshVersionFormatted 1", "# Created by meshio", "",
      joinToks ["Dimension", natToStr m.dim], "", "Vertices",
      natToStr m.points.length] ++
      List.zipWith writeVertexRow m.points pl ++ cls ++ ["", "End"], ?_, ?_⟩
  · unfold write
    rw [hpok, hwb]
  · have hm1 : tokenizeLine "MeshVersionFormatted 1" =
        some ["MeshVersionFormatted", "1"] := by decide
    have hm2 : tokenizeLine "# Created by meshio" = none := by decide
    have hm3 : tokenizeLine "" = none := rfl
    have hm4 : tokenizeLine (joinToks ["Dimension", natToStr m.dim]) =
        some ["Dimension", natToStr m.dim] := by
      refine tokenizeLine_join _ (by simp) ?_
      intro t ht
      rcases List.mem_cons.mp ht with h | h
      · rw [h]; decide
      · rw [List.mem_singleton.mp h]
        exact goodTok_natToStr _
    have hm5 : tokenizeLine "Vertices" = some ["Vertices"] := by decide
    have hm6 : tokenizeLine (natToStr m.points.length) =
        some [natToStr m.points.length] :=
      tokenizeLine_single _ (goodTok_natToStr _)
    have hm7 : tokenizeLine "End" = some ["End"] := by decide
    have hA : flatTokens ["MeshVersionFormatted 1", "# Created by meshio", "",
        joinToks ["Dimension", natToStr m.dim], "", "Vertices",
        natToStr m.points.length] =
        ["MeshVersionFormatted", "1", "Dimension", natToStr m.dim, "Vertices",
          natToStr m.points.length] := by
      simp only [flatTokens_cons, flatTokens, hm1, hm2, hm3, hm4, hm5, hm6]
      rfl
    have hE : flatTokens ["", "End"] = ["End"] := by
      simp only [flatTokens_cons, flatTokens, hm3, hm7]
      rfl
    show readTokens _ = _
    unfold readTokens
    rw [flatTokens_append, flatTokens_append, flatTokens_append, hA, hE]
    simp only [List.cons_append, List.nil_append, List.append_assoc]
    rw [readRun_mvf]
    rw [readRun_dimension (natToStr m.dim) ((m.dim : Nat) : Int) _ _
      (parseInt_natToStr m.dim)]
    show (readRun _ (⟨((m.dim : Nat) : Int), [], [], [], none, []⟩ : RState)).getD
        (Except.error ReadErr.unexpectedEOF) = _
    rw [readRun_vertices (natToStr m.points.length) m.points.length
      (⟨((m.dim : Nat) : Int), [], [], [], none, []⟩ : RState)
      (show (0 : Int) < ((m.dim : Nat) : Int) from by exact_mod_cast hdim)
      (parseInt_natToStr m.points.length)
      (readVertexRows_written m.dim m.points pl _ hpts hpllen)]
    rw [vertexPoints_zip m.points pl hpllen, vertexLabels_zip m.points pl hpllen]
    rw [hrb]
    rw [readRun_end, readRun_nil]
    show (some (finishRead (applyBlocks cf m.cells
        ⟨((m.dim : Nat) : Int), [], [(0, pl)], [], some m.points, []⟩))).getD
        (Except.error ReadErr.unexpectedEOF) = _
    rw [finish_after_blocks cf m.cells _ m.points [(0, pl)] hkeys]
    rfl

/-- Counterexample to the literal C1 claim: a snapshot whose single point
label sequence is stored under key `5` (not `0`) is accepted by `write`
(the writer silently picks the only sequence), but reading the output back
returns that sequence under key `0`, so the round-trip is not the identity
on such snapshots even up to default-label substitution. -/
theorem c1_counterexample :
    write ⟨1, [["0.5"]], [(5, [7])], [], []⟩ =
      .ok (["MeshVersionFormatted 1", "# Created by meshio", "",
        "Dimension 1", "", "Vertices", "1", "0.5 7", "", "End"], []) ∧
    read_buffer ["MeshVersionFormatted 1", "# Created by meshio", "",
        "Dimension 1", "", "Vertices", "1", "0.5 7", "", "End"] =
      .ok (⟨[["0.5"]], [], [(0, [7])], []⟩, []) ∧
    ([((0 : Nat), ([7] : List Int))] ≠ [(5, [7])]) :=
  ⟨rfl, rfl, by decide⟩

theorem c1_round_trip_witness :
    ∃ ls, write ⟨2, [["0.5", "1.5"], ["2.5", "3.5"]], [(0, [7, 8])],
        [("triangle", [[0, 1, 2]])], [("triangle", [(0, [5])])]⟩ =
        .ok (ls, []) ∧
      read_buffer ls = .ok (⟨[["0.5", "1.5"], ["2.5", "3.5"]],
        [("triangle", [[0, 1, 2]])], [(0, [7, 8])],
        [("triangle", [(0, [5])])]⟩, []) :=
  c1_round_trip ⟨2, [["0.5", "1.5"], ["2.5", "3.5"]], [(0, [7, 8])],
      [("triangle", [[0, 1, 2]])], [("triangle", [(0, [5])])]⟩ [7, 8]
    (fun _ => [5]) (by decide) (by decide) (Or.inr (by decide)) (by decide)
    (by
      intro kd hkd
      rw [List.mem_singleton.mp hkd]
      exact ⟨("Triangles", 3), rfl, by decide⟩)
    (Or.inr (by decide))
